import Mathlib

/-!
Shallow embedding of the Denial Extraction & Least-Privilege Policy Synthesis
Engine of the `iam-scoped-permissions` repository, together with theorems
settling the frozen claims about it.

The embedded TypeScript code lives in two services:

* `PermissionAnalyzerService` — aggregation of parsed permission denials
  (`analyzeLogs`), severity scoring (`calculateSeverity`), IAM condition
  generation (`generateConditions`), policy synthesis (`generateIAMPolicy`),
  CDK code generation filtering/grouping (`generateCDKCode`), and ARN
  optimization (`optimizeResourceArn`).
* `CloudWatchLogsService` — the log-record denial parser
  (`parsePermissionDenial`, `hasPermissionDenialPattern`, and the
  `extract*FromText` regex-chain extractors).

Strings are embedded as Lean `String`, with all computations carried out on
the underlying `List Char` so that everything reduces and every predicate is
decidable.  JavaScript's case-insensitive matching, `String.prototype`
searches and `JSON.parse` are embedded operationally below.  JavaScript
lowercasing is modelled as ASCII lowercasing (all patterns in the source are
ASCII).
-/

/-! ## Generic list/string utilities used by the embedding -/

/-- Boolean substring test on character lists: JavaScript
`String.prototype.includes`.  `listInfixB pat l` is true iff `pat` occurs
contiguously inside `l`. -/
def listInfixB (pat : List Char) : List Char → Bool
  | [] => pat.isEmpty
  | c :: t => pat.isPrefixOf (c :: t) || listInfixB pat t

/-- JavaScript `String.prototype.includes`. -/
def sIncludes (s pat : String) : Bool := listInfixB pat.data s.data

/-- JavaScript `String.prototype.startsWith`. -/
def sStartsWith (s pat : String) : Bool := pat.data.isPrefixOf s.data

/-- JavaScript `String.prototype.endsWith`. -/
def sEndsWith (s pat : String) : Bool := pat.data.isSuffixOf s.data

/-- Replace the first occurrence of `pat` in a character list by `repl`:
JavaScript `String.prototype.replace` with a string pattern.  If `pat` does
not occur the list is unchanged. -/
def replFirst (pat repl : List Char) : List Char → List Char
  | [] => []
  | c :: t =>
    if pat.isPrefixOf (c :: t) then repl ++ (c :: t).drop pat.length
    else c :: replFirst pat repl t

/-- ASCII lowercasing of a string; models `String.prototype.toLowerCase`
(the source only ever lowercases ASCII AWS action names). -/
def sToLower (s : String) : String := ⟨s.data.map Char.toLower⟩

/-! ## `PermissionAnalyzerService.optimizeResourceArn` -/

/-- `PermissionAnalyzerService.optimizeResourceArn`, translated branch by
branch from the source: `"Unknown"` and `"*"` map to `"*"`; an
`arn:aws:s3:::` resource without `/*` gets `/*` appended; a resource
containing a wildcard that is an `arn:aws:logs:` resource ending in `*`
without a `log-group:` qualifier has its first `*` replaced by
`log-group:*`; anything else is returned unchanged. -/
def optimizeResourceArn (resource : String) : String :=
  if resource = "Unknown" ∨ resource = "*" then "*"
  else if sIncludes resource "arn:aws:s3:::" ∧ ¬ sIncludes resource "/*" then
    resource ++ "/*"
  else if sIncludes resource "*" then
    if sIncludes resource "arn:aws:logs:" ∧ sEndsWith resource "*" then
      if sIncludes resource "log-group:" then resource
      else ⟨replFirst "*".data "log-group:*".data resource.data⟩
    else resource
  else resource

/-! ## Ordered-map and set primitives

TypeScript `Map` preserves insertion order; `Map.set` on an existing key
updates the value in place, on a fresh key appends at the end.  `Set`
deduplicates by value (for the string sets used here) preserving first
insertion. -/

/-- `Map.get`: the value stored at `k`, if any. -/
def mapGet {V : Type} (m : List (String × V)) (k : String) : Option V :=
  (m.find? (fun e => e.1 == k)).map (·.2)

/-- `Map.set`: update in place if `k` is present, else append. -/
def mapSet {V : Type} : List (String × V) → String → V → List (String × V)
  | [], k, v => [(k, v)]
  | (k', v') :: t, k, v => if k' == k then (k, v) :: t else (k', v') :: mapSet t k v

/-- `Set.add` for strings: append unless already present. -/
def setAdd (l : List String) (x : String) : List String :=
  if l.contains x then l else l ++ [x]

/-- `[...new Set(l)]`: deduplicate preserving first occurrences. -/
def dedupList (l : List String) : List String := l.foldl setAdd []

/-- JavaScript `Array.prototype.join`. -/
def joinSep (sep : String) : List String → String
  | [] => ""
  | [x] => x
  | x :: y :: t => x ++ sep ++ joinSep sep (y :: t)

/-- Insert `x` into `l` before the first element `y` with `lt x y`; the
building block of a stable sort matching JavaScript `Array.prototype.sort`
(stable since ES2019). -/
def insertSorted {α : Type} (lt : α → α → Bool) (x : α) : List α → List α
  | [] => [x]
  | y :: t => if lt x y then x :: y :: t else y :: insertSorted lt x t

/-- Stable insertion sort: elements comparing equal keep their original
relative order, as JavaScript `Array.prototype.sort` guarantees. -/
def stableSortBy {α : Type} (lt : α → α → Bool) (l : List α) : List α :=
  l.foldl (fun acc x => insertSorted lt x acc) []

/-! ## JSON values

`JSON.parse` results and the `Record<string, unknown>` condition maps are
modelled by one JSON value type.  Numbers keep their source lexeme (none of
the claims inspects numeric values; only JavaScript truthiness of `0` is
needed, which is decidable from the lexeme). -/

inductive Json where
  | null : Json
  | bool : Bool → Json
  | num : String → Json
  | str : String → Json
  | arr : List Json → Json
  | obj : List (String × Json) → Json

/-- A JSON numeric lexeme denotes zero iff no nonzero digit occurs before
the exponent marker. -/
def jsonNumIsZero (lex : String) : Bool :=
  (lex.data.takeWhile (fun c => c ≠ 'e' ∧ c ≠ 'E')).all
    (fun c => ¬ ('1' ≤ c ∧ c ≤ '9'))

/-- JavaScript truthiness of a JSON value. -/
def jsTruthy : Json → Bool
  | .null => false
  | .bool b => b
  | .num lex => ! jsonNumIsZero lex
  | .str s => s ≠ ""
  | .arr _ => true
  | .obj _ => true

/-- JSON string quoting as produced by `JSON.stringify`. -/
def jsonQuoteChar (c : Char) : String :=
  if c = '"' then "\\\""
  else if c = '\\' then "\\\\"
  else if c = (Char.ofNat 8) then "\\b"
  else if c = (Char.ofNat 12) then "\\f"
  else if c = '\n' then "\\n"
  else if c = '\r' then "\\r"
  else if c = '\t' then "\\t"
  else if c.toNat < 32 then
    "\\u" ++ ⟨[Nat.digitChar (c.toNat / 4096 % 16), Nat.digitChar (c.toNat / 256 % 16),
               Nat.digitChar (c.toNat / 16 % 16), Nat.digitChar (c.toNat % 16)]⟩
  else ⟨[c]⟩

def jsonQuote (s : String) : String :=
  "\"" ++ String.join (s.data.map jsonQuoteChar) ++ "\""

mutual

/-- `JSON.stringify` (no indentation), used by `generateIAMPolicy` to build
statement-grouping keys. -/
def jsonStringify : Json → String
  | .null => "null"
  | .bool true => "true"
  | .bool false => "false"
  | .num lex => lex
  | .str s => jsonQuote s
  | .arr xs => "[" ++ jsonStringifyList xs ++ "]"
  | .obj fs => "\x7b" ++ jsonStringifyFields fs ++ "\x7d"

def jsonStringifyList : List Json → String
  | [] => ""
  | [x] => jsonStringify x
  | x :: y :: t => jsonStringify x ++ "," ++ jsonStringifyList (y :: t)

def jsonStringifyFields : List (String × Json) → String
  | [] => ""
  | [(k, v)] => jsonQuote k ++ ":" ++ jsonStringify v
  | (k, v) :: f :: t => jsonQuote k ++ ":" ++ jsonStringify v ++ "," ++ jsonStringifyFields (f :: t)

end

/-- `Object.keys(x).length` for the values that can reach the condition
check in `generateIAMPolicy` (arrays expose their indices, strings their
character positions, other primitives have no keys). -/
def jsObjectKeysLength : Json → Nat
  | .obj fs => (dedupList (fs.map (·.1))).length
  | .arr xs => xs.length
  | .str s => s.data.length
  | _ => 0

/-! ## Data model (from `src/types/index.ts`) -/

structure CloudFormationResource where
  logicalId : String
  physicalId : String
  resourceType : String
  logGroups : List String
  deriving DecidableEq

structure PermissionDenial where
  timestamp : String
  logGroup : String
  logStream : String
  message : String
  action : String
  resource : String
  principal : String
  errorCode : String
  sourceIp : Option String := none
  userAgent : Option String := none
  deriving DecidableEq

/-- `LogAnalysisResult`; the `timeRange` pair of `Date`s is omitted: it is
never read by the analyzer core. -/
structure LogAnalysisResult where
  logGroupName : String
  associatedResource : Option CloudFormationResource
  permissionDenials : List PermissionDenial
  totalEvents : Nat
  deriving DecidableEq

inductive Severity where
  | low | medium | high | critical
  deriving DecidableEq

/-- The sort rank used by `analyzeLogs` (`Critical: 4, High: 3, Medium: 2,
Low: 1`). -/
def severityOrder : Severity → Nat
  | .critical => 4
  | .high => 3
  | .medium => 2
  | .low => 1

/-- `SuggestedPermission`; the `condition` map is a JSON object value,
`frequency` is a JavaScript number restricted to integers (all frequencies
in the system are event counts). -/
structure SuggestedPermission where
  action : String
  resource : String
  effect : String
  condition : Option Json
  reasoning : String
  frequency : Int
  severity : Severity

/-! ## `PermissionAnalyzerService`: aggregation -/

/-- `normalizeAction`: lowercase. -/
def normalizeAction (action : String) : String := sToLower action

/-- `normalizeResource`: ARNs pass through; partial names containing `/`
get the `arn:aws:*:*:*:` prefix; anything else passes through. -/
def normalizeResource (resource : String) : String :=
  if sStartsWith resource "arn:aws:" then resource
  else if sIncludes resource "/" then "arn:aws:*:*:*:" ++ resource
  else resource

/-- `calculateSeverity action errorCode totalDenials`, translated branch by
branch (the source's `lowerAction` binding is inlined as `sToLower action`):
`totalDenials` is `result.permissionDenials.length`, the number of denials
found in the same log group. -/
def calculateSeverity (action errorCode : String) (totalDenials : Nat) : Severity :=
  if sIncludes errorCode "AccessDenied" ∧
      (sIncludes (sToLower action) "lambda:invokefunction" ∨
        sIncludes (sToLower action) "dynamodb:" ∨
        sIncludes (sToLower action) "s3:getobject") then
    .critical
  else if totalDenials > 10 ∨ sIncludes errorCode "UnauthorizedOperation" then
    .high
  else if totalDenials > 3 ∨ sIncludes (sToLower action) "read" ∨
      sIncludes (sToLower action) "get" then
    .medium
  else
    .low

/-- `generateConditions`; `now` stands for `new Date().toISOString()` at
generation time. -/
def generateConditions (now : String) (action resource : String) : Option Json :=
  let conditions : List (String × Json) :=
    (if sIncludes action "delete" ∨ sIncludes action "put" ∨ sIncludes action "create" then
      [("DateGreaterThan", Json.obj [("aws:CurrentTime", Json.str now)])]
    else []) ++
    (if sIncludes resource "api" ∨ sIncludes resource "public" then
      [("IpAddress", Json.obj [("aws:SourceIp",
        Json.arr [Json.str "10.0.0.0/8", Json.str "172.16.0.0/12", Json.str "192.168.0.0/16"])])]
    else []) ++
    (if sIncludes action "delete" ∨ sIncludes action "iam:" ∨ sIncludes action "admin" then
      [("Bool", Json.obj [("aws:MultiFactorAuthPresent", Json.str "true")])]
    else [])
  if conditions.length > 0 then some (Json.obj conditions) else none

/-- `consolidateReasoning`. -/
def consolidateReasoning (reasons : List String) (associatedResources : List String) : String :=
  let consolidated := joinSep "; " (dedupList reasons)
  if associatedResources.length > 0 then
    consolidated ++ ". Associated with CloudFormation resources: " ++
      joinSep ", " (dedupList associatedResources)
  else consolidated

/-- One row of the `permissionMap` accumulated by `analyzeLogs`. -/
structure PermEntry where
  action : String
  frequency : Int
  resource : String
  reasoning : List String
  severity : Severity
  associatedResources : List String
  deriving DecidableEq

/-- The `analyzeLogs` map key \`${action}|||${resource}\`. -/
def permKey (action resource : String) : String := action ++ "|||" ++ resource

/-- The key a denial is aggregated under. -/
def keyOfDenial (d : PermissionDenial) : String :=
  permKey (normalizeAction d.action) (normalizeResource d.resource)

/-- The reasoning entry recorded at a key's first occurrence. -/
def firstReason (result : LogAnalysisResult) (d : PermissionDenial) : String :=
  "Permission denied in " ++ result.logGroupName ++ ": " ++ d.errorCode

/-- The reasoning entry appended at each later merge of the same key. -/
def additionalReason (result : LogAnalysisResult) (d : PermissionDenial) : String :=
  "Additional denial in " ++ result.logGroupName ++ ": " ++ d.errorCode

/-- The associated-resource ids contributed by one merge step. -/
def assocIds (result : LogAnalysisResult) : List String :=
  match result.associatedResource with
  | some r => [r.logicalId]
  | none => []

/-- The map row created at a key's first occurrence (the `else` branch of
the `analyzeLogs` merge). -/
def freshEntry (q : LogAnalysisResult × PermissionDenial) : PermEntry :=
  { action := normalizeAction q.2.action,
    frequency := 1,
    resource := normalizeResource q.2.resource,
    reasoning := [firstReason q.1 q.2],
    severity := calculateSeverity (normalizeAction q.2.action) q.2.errorCode
      q.1.permissionDenials.length,
    associatedResources := assocIds q.1 }

/-- The update applied to an existing map row on a merge (the `then` branch
of the `analyzeLogs` merge): frequency is incremented, one reasoning entry
is appended, and the enclosing result's associated resource id is pushed
when present. -/
def extendEntry (e : PermEntry) (q : LogAnalysisResult × PermissionDenial) : PermEntry :=
  { e with
    frequency := e.frequency + 1,
    reasoning := e.reasoning ++ [additionalReason q.1 q.2],
    associatedResources := e.associatedResources ++ assocIds q.1 }

/-- The body of the inner `analyzeLogs` loop: merge one denial of `result`
into the permission map. -/
def mergeDenial (result : LogAnalysisResult) (m : List (String × PermEntry))
    (d : PermissionDenial) : List (String × PermEntry) :=
  let key := keyOfDenial d
  match mapGet m key with
  | some existing => mapSet m key (extendEntry existing (result, d))
  | none => mapSet m key (freshEntry (result, d))

/-- The effect of a run of merges that all hit one key, starting from the
key's current row (if any): the abstract per-key view of the fold. -/
def mergeKeyAll : Option PermEntry → List (LogAnalysisResult × PermissionDenial) →
    Option PermEntry
  | e?, [] => e?
  | e?, q :: t =>
    mergeKeyAll (some (match e? with
      | none => freshEntry q
      | some e => extendEntry e q)) t

/-- The `permissionMap` built by the two nested loops of `analyzeLogs`. -/
def buildPermissionMap (results : List LogAnalysisResult) : List (String × PermEntry) :=
  results.foldl (fun m result => result.permissionDenials.foldl (mergeDenial result) m) []

/-- The denials of a batch in processing order, each with its enclosing
result. -/
def denialPairs (results : List LogAnalysisResult) :
    List (LogAnalysisResult × PermissionDenial) :=
  results.flatMap (fun r => r.permissionDenials.map (fun d => (r, d)))

/-- Conversion of a map row to a `SuggestedPermission` (the tail of
`analyzeLogs`). -/
def entryToPermission (now : String) (e : PermEntry) : SuggestedPermission :=
  { action := if e.action = "" then "Unknown" else e.action,
    resource := e.resource,
    effect := "Allow",
    condition := generateConditions now e.action e.resource,
    reasoning := consolidateReasoning e.reasoning e.associatedResources,
    frequency := e.frequency,
    severity := e.severity }

/-- The `analyzeLogs` output comparator: severity rank descending, then
frequency descending ( `a` strictly precedes `b`). -/
def permBefore (a b : SuggestedPermission) : Bool :=
  severityOrder b.severity < severityOrder a.severity ∨
    (severityOrder b.severity = severityOrder a.severity ∧ b.frequency < a.frequency)

/-- `PermissionAnalyzerService.analyzeLogs`. -/
def analyzeLogs (now : String) (logAnalysisResults : List LogAnalysisResult) :
    List SuggestedPermission :=
  stableSortBy permBefore
    ((buildPermissionMap logAnalysisResults).map (fun e => entryToPermission now e.2))

/-! ## `PermissionAnalyzerService`: policy synthesis -/

structure IAMStatement where
  Effect : String
  Action : List String
  Resource : List String
  Condition : Option Json

structure IAMPolicy where
  Version : String
  Statement : List IAMStatement

/-- The filter `generateIAMPolicy` applies: a permission is skipped exactly
when `frequency === 0 && severity === 'Low'`. -/
def keepIAMPermission (p : SuggestedPermission) : Bool :=
  ! (p.frequency == 0 && p.severity == Severity.low)

/-- `JSON.stringify(permission.condition || \x7b\x7d)`: an absent or falsy
condition serializes as the empty object. -/
def condKey (c : Option Json) : String :=
  jsonStringify (match c with
    | some c' => if jsTruthy c' then c' else Json.obj []
    | none => Json.obj [])

/-- One row of the `statementMap` in `generateIAMPolicy`. -/
structure StmtAcc where
  actions : List String
  resources : List String
  condition : Option Json

/-- One iteration of the `generateIAMPolicy` grouping loop. -/
def iamStep (m : List (String × StmtAcc)) (p : SuggestedPermission) :
    List (String × StmtAcc) :=
  if keepIAMPermission p then
    let key := p.resource ++ ":" ++ condKey p.condition
    match mapGet m key with
    | some st =>
      mapSet m key { st with
        actions := setAdd st.actions p.action,
        resources := setAdd st.resources p.resource }
    | none =>
      mapSet m key {
        actions := [p.action],
        resources := [p.resource],
        condition := match p.condition with
          | some c => if jsTruthy c then some c else none
          | none => none }
  else m

/-- JavaScript default string comparison used by `.sort()`. -/
def stringLtB (a b : String) : Bool := decide (a < b)

/-- `Array.from(set).sort()`. -/
def sortStrings (l : List String) : List String := stableSortBy stringLtB l

/-- Rendering of one `statementMap` row to an IAM statement (the stored
condition is already truthy; it is emitted only when it has keys). -/
def renderStatement (st : StmtAcc) : IAMStatement :=
  { Effect := "Allow",
    Action := sortStrings st.actions,
    Resource := sortStrings st.resources,
    Condition := match st.condition with
      | some c => if jsObjectKeysLength c > 0 then some c else none
      | none => none }

/-- `PermissionAnalyzerService.generateIAMPolicy`. -/
def generateIAMPolicy (permissions : List SuggestedPermission) : IAMPolicy :=
  { Version := "2012-10-17",
    Statement := (permissions.foldl iamStep []).map (fun e => renderStatement e.2) }

/-! ## `PermissionAnalyzerService`: CDK code generation (statement content)

`generateCDKCode` renders a TypeScript source string; the embedding below
captures the permissions it keeps and the `iam.PolicyStatement` blocks that
string contains, which is all the claims observe. -/

/-- The filter applied by `generateCDKCode` (`relevantPermissions`): keep a
permission iff `frequency > 0 || severity === 'Critical' || severity ===
'High'`. -/
def cdkRelevantFilter (p : SuggestedPermission) : Bool :=
  decide (0 < p.frequency) || p.severity == Severity.critical ||
    p.severity == Severity.high

/-- `relevantPermissions` in `generateCDKCode`. -/
def cdkRelevantPermissions (permissions : List SuggestedPermission) :
    List SuggestedPermission :=
  permissions.filter cdkRelevantFilter

/-- \`permission.action.split(':')[0] || 'unknown'\`. -/
def permissionService (p : SuggestedPermission) : String :=
  let s : String := ⟨p.action.data.takeWhile (· ≠ ':')⟩
  if s = "" then "unknown" else s

/-- `groupPermissionsByService`. -/
def groupPermissionsByService (permissions : List SuggestedPermission) :
    List (String × List SuggestedPermission) :=
  permissions.foldl (fun groups p =>
    let service := permissionService p
    match mapGet groups service with
    | some ps => mapSet groups service (ps ++ [p])
    | none => mapSet groups service [p]) []

/-- `getResourcePattern`. -/
def getResourcePattern (resource : String) : String :=
  if sIncludes resource "arn:aws:s3:::" then "S3 Bucket Access"
  else if sIncludes resource "arn:aws:dynamodb:" then "DynamoDB Table Access"
  else if sIncludes resource "arn:aws:lambda:" then "Lambda Function Access"
  else if sIncludes resource "arn:aws:logs:" then "CloudWatch Logs Access"
  else if sIncludes resource "arn:aws:iam:" then "IAM Access"
  else if sIncludes resource "arn:aws:ssm:" then "Systems Manager Access"
  else if sIncludes resource "arn:aws:secretsmanager:" then "Secrets Manager Access"
  else if sIncludes resource "arn:aws:kms:" then "KMS Access"
  else "General AWS Access"

/-- One row of the per-service statement grouping in `generateCDKCode`;
`conditions` is a JavaScript `Set` of object references, which never
coalesces distinct insertions, hence a list. -/
structure CdkStmtAcc where
  actions : List String
  resources : List String
  conditions : List Json

/-- `groupStatementsByResource`. -/
def groupStatementsByResource (permissions : List SuggestedPermission) :
    List (String × CdkStmtAcc) :=
  permissions.foldl (fun groups p =>
    let resourceKey := getResourcePattern p.resource
    let g := (mapGet groups resourceKey).getD
      { actions := [], resources := [], conditions := [] }
    mapSet groups resourceKey
      { actions := setAdd g.actions p.action,
        resources := setAdd g.resources p.resource,
        conditions := g.conditions ++ (match p.condition with
          | some c => [c]
          | none => []) }) []

/-- The `iam.PolicyStatement` blocks contained in the string returned by
`generateCDKCode`: one per (service group, resource pattern) pair, in
emission order; empty when `relevantPermissions` is empty (the generated
code is then only the "No permissions to generate" comment). -/
def cdkPolicyStatements (permissions : List SuggestedPermission) :
    List (String × String × CdkStmtAcc) :=
  let relevantPermissions := cdkRelevantPermissions permissions
  if relevantPermissions.isEmpty then []
  else
    (groupPermissionsByService relevantPermissions).flatMap
      (fun sg => (groupStatementsByResource sg.2).map (fun rg => (sg.1, rg.1, rg.2)))

/-! ## Regular-expression machinery for `CloudWatchLogsService`

Every regex in the source is a chain of case-insensitive literals,
whitespace gaps (`\s*`/`\s+`), greedy character-class runs (`[...]+`,
`[...]*`) and, in `hasPermissionDenialPattern`, a `.*` gap between two
literals.  In each of them every class excludes the character that must
follow it, so greedy matching needs no backtracking and each pattern is a
deterministic function of the match position; `String.prototype.match`
semantics (earliest start position wins, first pattern in the array wins)
is the position scan below. -/

/-- JavaScript `\s`. -/
def isJsWs (c : Char) : Bool :=
  c = ' ' ∨ c = '\t' ∨ c = '\n' ∨ (c.toNat = 11) ∨ (c.toNat = 12) ∨ c = '\r' ∨
    c.toNat = 0xa0 ∨ c.toNat = 0x1680 ∨ (0x2000 ≤ c.toNat ∧ c.toNat ≤ 0x200a) ∨
    c.toNat = 0x2028 ∨ c.toNat = 0x2029 ∨ c.toNat = 0x202f ∨ c.toNat = 0x205f ∨
    c.toNat = 0x3000 ∨ c.toNat = 0xfeff

/-- JavaScript `.` without the `s` flag: everything but line terminators. -/
def isDotChar (c : Char) : Bool :=
  ¬ (c = '\n' ∨ c = '\r' ∨ c.toNat = 0x2028 ∨ c.toNat = 0x2029)

/-- Match a literal (case-insensitively when `ci`), returning the rest. -/
def matchLit (ci : Bool) : List Char → List Char → Option (List Char)
  | [], rest => some rest
  | _ :: _, [] => none
  | p :: ps, c :: cs =>
    if (if ci then p.toLower == c.toLower else p == c) then matchLit ci ps cs else none

/-- `RegExp.prototype.test` for a literal pattern: does it occur anywhere? -/
def searchLit (ci : Bool) (pat : List Char) : List Char → Bool
  | [] => (matchLit ci pat []).isSome
  | c :: t => (matchLit ci pat (c :: t)).isSome || searchLit ci pat t

/-- After `lit1 .*`, can `lit2` be reached across dot-matchable characters
only? -/
def searchGap (lit2 : List Char) : List Char → Bool
  | [] => (matchLit true lit2 []).isSome
  | c :: t => (matchLit true lit2 (c :: t)).isSome || (isDotChar c && searchGap lit2 t)

/-- `RegExp.prototype.test` for the `/lit1.*lit2/i` patterns of
`hasPermissionDenialPattern`. -/
def searchSplit (lit1 lit2 : List Char) : List Char → Bool
  | [] => false
  | c :: t =>
    (match matchLit true lit1 (c :: t) with
      | some rest => searchGap lit2 rest
      | none => false) || searchSplit lit1 lit2 t

/-- `\s+`: at least one whitespace character, then greedily all of them. -/
def wsPlus : List Char → Option (List Char)
  | [] => none
  | c :: t => if isJsWs c then some (t.dropWhile isJsWs) else none

/-- A greedy nonempty class run `[...]+`: the run and the rest. -/
def classRun (p : Char → Bool) (l : List Char) : Option (List Char × List Char) :=
  match l.takeWhile p with
  | [] => none
  | run => some (run, l.dropWhile p)

/-- Expect one literal character. -/
def expectChar (c : Char) : List Char → Option (List Char)
  | [] => none
  | x :: t => if x == c then some t else none

/-- `[a-zA-Z0-9:_-]`. -/
def actionClassChar (c : Char) : Bool := c.isAlphanum || c = ':' || c = '_' || c = '-'

/-- `[^\s,]`. -/
def noWsCommaChar (c : Char) : Bool := !(isJsWs c) && c ≠ ','

/-- `[^:\s]`. -/
def noColonWsChar (c : Char) : Bool := !(isJsWs c) && c ≠ ':'

/-- Run a match attempt at every start position, earliest first —
`String.prototype.match` for an unanchored pattern. -/
def scanOpt {α : Type} (f : List Char → Option α) : List Char → Option α
  | [] => f []
  | c :: t => (f (c :: t)).orElse (fun _ => scanOpt f t)

/-- First defined value, mirroring the "first pattern wins" loops. -/
def firstSome {α : Type} : List (Option α) → Option α
  | [] => none
  | x :: t => x.orElse (fun _ => firstSome t)

/-! ### `extractActionFromText` -/

/-- `/perform:\s*([a-zA-Z0-9:_-]+)/i` at one position. -/
def tryActionPerformColon (l : List Char) : Option String := do
  let r ← matchLit true "perform:".data l
  let (run, _) ← classRun actionClassChar (r.dropWhile isJsWs)
  pure ⟨run⟩

/-- `/perform\s+([a-zA-Z0-9:_-]+)/i` at one position. -/
def tryActionPerformWs (l : List Char) : Option String := do
  let r ← matchLit true "perform".data l
  let r' ← wsPlus r
  let (run, _) ← classRun actionClassChar r'
  pure ⟨run⟩

/-- `/action\s+([a-zA-Z0-9:_-]+)/i` at one position. -/
def tryActionActionWs (l : List Char) : Option String := do
  let r ← matchLit true "action".data l
  let r' ← wsPlus r
  let (run, _) ← classRun actionClassChar r'
  pure ⟨run⟩

/-- `/<lit>:\s*([^\s,]+)/i` at one position, shared by the `Action:`,
`Operation:`, `EventName:`, `Resource:`, `Bucket:`, `Key:`, `ErrorCode:`,
`User:`, `Role:`, `Principal:` colon-label patterns. -/
def tryLabelValue (label : List Char) (l : List Char) : Option String := do
  let r ← matchLit true label l
  let (run, _) ← classRun noWsCommaChar (r.dropWhile isJsWs)
  pure ⟨run⟩

/-- `/([a-zA-Z0-9]+:[a-zA-Z0-9]+)/` at one position. -/
def tryActionBare (l : List Char) : Option String := do
  let (r1, rest) ← classRun Char.isAlphanum l
  let rest2 ← expectChar ':' rest
  let (r2, _) ← classRun Char.isAlphanum rest2
  pure ⟨r1 ++ ':' :: r2⟩

/-- `CloudWatchLogsService.extractActionFromText`: the ordered pattern
chain, first match wins, `"Unknown"` fallback. -/
def extractActionFromText (message : String) : String :=
  (firstSome
    [scanOpt tryActionPerformColon message.data,
     scanOpt tryActionPerformWs message.data,
     scanOpt tryActionActionWs message.data,
     scanOpt (tryLabelValue "action:".data) message.data,
     scanOpt (tryLabelValue "operation:".data) message.data,
     scanOpt (tryLabelValue "eventname:".data) message.data,
     scanOpt tryActionBare message.data]).getD "Unknown"

/-! ### `extractResourceFromText` -/

/-- The six-segment ARN shape
`arn:aws:[^:\s]+:[^:\s]*:[^:\s]*:[^:\s]+:[^\s,]+` (case-insensitive);
returns the captured characters. -/
def arnShape (l : List Char) : Option (List Char) := do
  let r0 ← matchLit true "arn:aws:".data l
  let (_, r1) ← classRun noColonWsChar r0
  let r2 ← expectChar ':' r1
  let r3 := r2.dropWhile noColonWsChar
  let r4 ← expectChar ':' r3
  let r5 := r4.dropWhile noColonWsChar
  let r6 ← expectChar ':' r5
  let (_, r7) ← classRun noColonWsChar r6
  let r8 ← expectChar ':' r7
  let (_, r9) ← classRun noWsCommaChar r8
  pure (l.take (l.length - r9.length))

/-- `/on resource:\s*(arn:...)/i` and `/resource:\s*(arn:...)/i` at one
position. -/
def tryLabelArn (label : List Char) (l : List Char) : Option String := do
  let r ← matchLit true label l
  let cap ← arnShape (r.dropWhile isJsWs)
  pure ⟨cap⟩

/-- `/on\s+(arn:...)/i` at one position. -/
def tryOnArn (l : List Char) : Option String := do
  let r ← matchLit true "on".data l
  let r' ← wsPlus r
  let cap ← arnShape r'
  pure ⟨cap⟩

/-- `/on table\s+([^\s,]+)/i` and `/table\s+([^\s,]+)/i` at one position. -/
def tryTableValue (label : List Char) (l : List Char) : Option String := do
  let r ← matchLit true label l
  let r' ← wsPlus r
  let (run, _) ← classRun noWsCommaChar r'
  pure ⟨run⟩

/-- The ordered `(pattern, sourceMentionsTable)` list of
`extractResourceFromText`. -/
def resourcePatternList : List ((List Char → Option String) × Bool) :=
  [(tryLabelArn "on resource:".data, false),
   (tryLabelArn "resource:".data, false),
   (tryOnArn, false),
   (fun l => (arnShape l).map (fun cap => (⟨cap⟩ : String)), false),
   (tryTableValue "on table".data, true),
   (tryTableValue "table".data, true),
   (tryLabelValue "resource:".data, false),
   (tryLabelValue "bucket:".data, false),
   (tryLabelValue "key:".data, false)]

/-- The `extractResourceFromText` loop, including the `table ` prefixing for
the two table patterns. -/
def runResourcePatterns : List ((List Char → Option String) × Bool) → List Char → Option String
  | [], _ => none
  | (f, tbl) :: t, l =>
    match scanOpt f l with
    | some cap =>
      some (if tbl ∧ ¬ sStartsWith cap "table " then "table " ++ cap else cap)
    | none => runResourcePatterns t l

/-- `CloudWatchLogsService.extractResourceFromText`. -/
def extractResourceFromText (message : String) : String :=
  (runResourcePatterns resourcePatternList message.data).getD "Unknown"

/-! ### `extractPrincipalFromText` -/

/-- `arn:aws:iam::[^:\s]+:(user|role)\/[^\s,]+` (case-insensitive): the
captured characters.  The `user`/`role` alternatives differ at their first
character, so at most one can apply at a position. -/
def iamArnShape (l : List Char) : Option (List Char) := do
  let r0 ← matchLit true "arn:aws:iam::".data l
  let (_, r1) ← classRun noColonWsChar r0
  let r2 ← expectChar ':' r1
  let r3 ← (matchLit true "user/".data r2).orElse (fun _ => matchLit true "role/".data r2)
  let (_, r4) ← classRun noWsCommaChar r3
  pure (l.take (l.length - r4.length))

/-- `/User:\s*(arn:aws:iam::...)/i` at one position. -/
def tryUserIamArn (l : List Char) : Option String := do
  let r ← matchLit true "user:".data l
  let cap ← iamArnShape (r.dropWhile isJsWs)
  pure ⟨cap⟩

/-- `/Principal\s+(arn:aws:iam::...)/i` at one position. -/
def tryPrincipalIamArn (l : List Char) : Option String := do
  let r ← matchLit true "principal".data l
  let r' ← wsPlus r
  let cap ← iamArnShape r'
  pure ⟨cap⟩

/-- `/for\s+(role\/[^\s,]+)/i` at one position. -/
def tryForRole (l : List Char) : Option String := do
  let r ← matchLit true "for".data l
  let r' ← wsPlus r
  let r2 ← matchLit true "role/".data r'
  let (_, r3) ← classRun noWsCommaChar r2
  pure ⟨r'.take (r'.length - r3.length)⟩

/-- `CloudWatchLogsService.extractPrincipalFromText`. -/
def extractPrincipalFromText (message : String) : String :=
  (firstSome
    [scanOpt tryUserIamArn message.data,
     scanOpt tryPrincipalIamArn message.data,
     scanOpt iamArnShape message.data |>.map (fun cap => (⟨cap⟩ : String)),
     scanOpt tryForRole message.data,
     scanOpt (tryLabelValue "user:".data) message.data,
     scanOpt (tryLabelValue "role:".data) message.data,
     scanOpt (tryLabelValue "principal:".data) message.data]).getD "Unknown"

/-! ### `extractErrorCodeFromText` -/

/-- A case-insensitive literal with its capture (`match[1]` is the matched
text as it appears in the input). -/
def tryLitCapture (pat : List Char) (l : List Char) : Option String :=
  (matchLit true pat l).map (fun rest => (⟨l.take (l.length - rest.length)⟩ : String))

/-- `CloudWatchLogsService.extractErrorCodeFromText`: `ErrorCode:` label,
the eleven known error-name literals, then the `not authorized`/`access
denied` fallback to `AccessDenied`. -/
def extractErrorCodeFromText (message : String) : String :=
  match firstSome
    [scanOpt (tryLabelValue "errorcode:".data) message.data,
     scanOpt (tryLitCapture "AccessDenied".data) message.data,
     scanOpt (tryLitCapture "UnauthorizedOperation".data) message.data,
     scanOpt (tryLitCapture "Forbidden".data) message.data,
     scanOpt (tryLitCapture "InvalidUserID.NotFound".data) message.data,
     scanOpt (tryLitCapture "InvalidAction".data) message.data,
     scanOpt (tryLitCapture "NoSuchBucket".data) message.data,
     scanOpt (tryLitCapture "NoSuchKey".data) message.data,
     scanOpt (tryLitCapture "CredentialsNotFound".data) message.data,
     scanOpt (tryLitCapture "InvalidAccessKeyId".data) message.data,
     scanOpt (tryLitCapture "SignatureDoesNotMatch".data) message.data,
     scanOpt (tryLitCapture "TokenRefreshRequired".data) message.data] with
  | some cap => cap
  | none =>
    if searchLit true "not authorized".data message.data ∨
        searchLit true "access denied".data message.data then "AccessDenied"
    else "Unknown"

/-! ### `hasPermissionDenialPattern` -/

/-- `CloudWatchLogsService.hasPermissionDenialPattern`: the fixed ordered
list of denial-signature patterns, all case-insensitive. -/
def hasPermissionDenialPattern (message : String) : Bool :=
  let d := message.data
  searchLit true "AccessDenied".data d ||
  searchLit true "UnauthorizedOperation".data d ||
  searchLit true "Forbidden".data d ||
  searchLit true "not authorized".data d ||
  searchLit true "permission denied".data d ||
  searchLit true "access denied".data d ||
  searchLit true "InvalidUserID.NotFound".data d ||
  searchLit true "InvalidAction".data d ||
  searchLit true "CredentialsNotFound".data d ||
  searchLit true "InvalidAccessKeyId".data d ||
  searchLit true "SignatureDoesNotMatch".data d ||
  searchLit true "TokenRefreshRequired".data d ||
  searchLit true "User is not authorized to perform".data d ||
  searchLit true "is not authorized to perform".data d ||
  searchLit true "States.TaskFailed".data d ||
  searchLit true "States.ExecutionFailed".data d ||
  searchLit true "lambda:InvokeFunction".data d ||
  searchSplit "User: ".data " is not authorized to perform: lambda:InvokeFunction".data d ||
  searchSplit "User: ".data " is not authorized to perform: sns:Publish".data d ||
  searchSplit "User: ".data " is not authorized to perform: sqs:SendMessage".data d ||
  searchSplit "User: ".data " is not authorized to perform: dynamodb:".data d ||
  searchSplit "User: ".data " is not authorized to perform: s3:".data d ||
  searchSplit "User: ".data " is not authorized to perform: kms:".data d

/-! ## `JSON.parse`

A recursive-descent parser for the JSON grammar, structural on a fuel
argument (every recursive call consumes at least one input character first,
so `input.length + 1` fuel always suffices; running out of fuel can only
coincide with malformed input). -/

/-- JSON insignificant whitespace. -/
def jsonWsChar (c : Char) : Bool := c = ' ' ∨ c = '\t' ∨ c = '\n' ∨ c = '\r'

def skipJsonWs (l : List Char) : List Char := l.dropWhile jsonWsChar

def hexDigitVal (c : Char) : Option Nat :=
  if '0' ≤ c ∧ c ≤ '9' then some (c.toNat - '0'.toNat)
  else if 'a' ≤ c ∧ c ≤ 'f' then some (c.toNat - 'a'.toNat + 10)
  else if 'A' ≤ c ∧ c ≤ 'F' then some (c.toNat - 'A'.toNat + 10)
  else none

/-- Decode one string escape after a backslash.  `\uXXXX` becomes the code
point directly (surrogate pairs are not recombined; no claim inspects
decoded non-ASCII text). -/
def decodeEscape : List Char → Option (Char × List Char)
  | [] => none
  | e :: t =>
    if e = '"' then some ('"', t)
    else if e = '\\' then some ('\\', t)
    else if e = '/' then some ('/', t)
    else if e = 'b' then some (Char.ofNat 8, t)
    else if e = 'f' then some (Char.ofNat 12, t)
    else if e = 'n' then some ('\n', t)
    else if e = 'r' then some ('\r', t)
    else if e = 't' then some ('\t', t)
    else if e = 'u' then
      match t with
      | h1 :: h2 :: h3 :: h4 :: t4 => do
        let d1 ← hexDigitVal h1
        let d2 ← hexDigitVal h2
        let d3 ← hexDigitVal h3
        let d4 ← hexDigitVal h4
        pure (Char.ofNat (d1 * 4096 + d2 * 256 + d3 * 16 + d4), t4)
      | _ => none
    else none

def isJsonDigit (c : Char) : Bool := '0' ≤ c ∧ c ≤ '9'

/-- A JSON number per the grammar
`-? (0 | [1-9][0-9]*) (. [0-9]+)? ([eE][+-]?[0-9]+)?`; returns the lexeme
and the rest. -/
def parseJsonNumber (l : List Char) : Option (String × List Char) :=
  let (sign, r0) := match l with
    | '-' :: t => (['-'], t)
    | _ => ([], l)
  match r0 with
  | [] => none
  | c :: t =>
    if ¬ isJsonDigit c then none
    else
      let (ip, r1) :=
        if c = '0' then (['0'], t)
        else (c :: t.takeWhile isJsonDigit, t.dropWhile isJsonDigit)
      let (fp, r2) := match r1 with
        | '.' :: u =>
          match u.takeWhile isJsonDigit with
          | [] => ([], r1)
          | ds => ('.' :: ds, u.dropWhile isJsonDigit)
        | _ => ([], r1)
      if fp = [] ∧ r1 ≠ r2 then none
      else
        match r2 with
        | 'e' :: u => parseJsonExp ['e'] u (sign ++ ip ++ fp)
        | 'E' :: u => parseJsonExp ['E'] u (sign ++ ip ++ fp)
        | _ =>
          match r1 with
          | '.' :: u => if (u.takeWhile isJsonDigit).isEmpty then none
              else some (⟨sign ++ ip ++ fp⟩, r2)
          | _ => some (⟨sign ++ ip ++ fp⟩, r2)
where
  parseJsonExp (e : List Char) (u : List Char) (acc : List Char) :
      Option (String × List Char) :=
    let (es, u1) := match u with
      | '+' :: v => (['+'], v)
      | '-' :: v => (['-'], v)
      | _ => ([], u)
    match u1.takeWhile isJsonDigit with
    | [] => none
    | ds => some (⟨acc ++ e ++ es ++ ds⟩, u1.dropWhile isJsonDigit)

mutual

/-- One JSON value at the head of the input (whitespace already skipped). -/
def parseJsonValue : Nat → List Char → Option (Json × List Char)
  | 0, _ => none
  | fuel + 1, l =>
    match l with
    | 'n' :: t => (matchLit false "ull".data t).map (fun r => (Json.null, r))
    | 't' :: t => (matchLit false "rue".data t).map (fun r => (Json.bool true, r))
    | 'f' :: t => (matchLit false "alse".data t).map (fun r => (Json.bool false, r))
    | '"' :: t => (parseJsonStringBody fuel t).map (fun (s, r) => (Json.str s, r))
    | '{' :: t =>
      let t' := skipJsonWs t
      match t' with
      | '}' :: r => some (Json.obj [], r)
      | _ => (parseJsonMembers fuel t').map (fun (fs, r) => (Json.obj fs, r))
    | '[' :: t =>
      let t' := skipJsonWs t
      match t' with
      | ']' :: r => some (Json.arr [], r)
      | _ => (parseJsonElements fuel t').map (fun (xs, r) => (Json.arr xs, r))
    | _ => (parseJsonNumber l).map (fun (lex, r) => (Json.num lex, r))

/-- The characters of a JSON string after its opening quote. -/
def parseJsonStringBody : Nat → List Char → Option (String × List Char)
  | 0, _ => none
  | fuel + 1, l =>
    match l with
    | [] => none
    | c :: t =>
      if c = '"' then some ("", t)
      else if c = '\\' then do
        let (d, t2) ← decodeEscape t
        let (s, r) ← parseJsonStringBody fuel t2
        pure (⟨d :: s.data⟩, r)
      else if c.toNat < 32 then none
      else do
        let (s, r) ← parseJsonStringBody fuel t
        pure (⟨c :: s.data⟩, r)

/-- Object members after `{` and leading whitespace (at least one member). -/
def parseJsonMembers : Nat → List Char → Option (List (String × Json) × List Char)
  | 0, _ => none
  | fuel + 1, l =>
    match l with
    | '"' :: t => do
      let (k, r1) ← parseJsonStringBody fuel t
      let r2 ← expectChar ':' (skipJsonWs r1)
      let (v, r3) ← parseJsonValue fuel (skipJsonWs r2)
      match skipJsonWs r3 with
      | ',' :: r4 => do
        let (fs, r5) ← parseJsonMembers fuel (skipJsonWs r4)
        pure ((k, v) :: fs, r5)
      | '}' :: r4 => pure ([(k, v)], r4)
      | _ => none
    | _ => none

/-- Array elements after `[` and leading whitespace (at least one element). -/
def parseJsonElements : Nat → List Char → Option (List Json × List Char)
  | 0, _ => none
  | fuel + 1, l => do
    let (v, r1) ← parseJsonValue fuel l
    match skipJsonWs r1 with
    | ',' :: r2 => do
      let (xs, r3) ← parseJsonElements fuel (skipJsonWs r2)
      pure (v :: xs, r3)
    | ']' :: r2 => pure ([v], r2)
    | _ => none

end

/-- `JSON.parse`: whole-input parse with surrounding whitespace.  Each
parser call consumes at least one character per two call edges, so
`2 * length + 2` fuel always suffices. -/
def jsonParse (s : String) : Option Json :=
  match parseJsonValue (2 * s.data.length + 2) (skipJsonWs s.data) with
  | some (v, rest) => if (skipJsonWs rest).isEmpty then some v else none
  | none => none

/-! ## Structured field extraction (`extractAction` etc.) -/

/-- JavaScript property access on a parsed JSON value: `undefined` (`none`)
unless an object field is present; later duplicate keys shadow earlier ones
as in object construction. -/
def jsonGet (j : Json) (k : String) : Option Json :=
  match j with
  | .obj fs => (fs.reverse.find? (fun f => f.1 == k)).map (·.2)
  | _ => none

/-- Indexing `[0]` used by `parsedMessage.resources?.[0]`. -/
def jsonIndex (j : Json) (i : Nat) : Option Json :=
  match j with
  | .arr xs => xs.get? i
  | _ => none

/-- The value a `a || b || ...` chain selects: the first present, truthy
field. -/
def firstTruthy : List (Option Json) → Option Json
  | [] => none
  | some v :: t => if jsTruthy v then some v else firstTruthy t
  | none :: t => firstTruthy t

/-- The string stored in a `PermissionDenial` field for a JSON value.  The
pipeline only ever produces strings here; a non-string truthy field value
is modelled by its canonical JSON rendering. -/
def jsonFieldString : Json → String
  | .str s => s
  | .bool true => "true"
  | .bool false => "false"
  | .num lex => lex
  | .null => "null"
  | j => jsonStringify j

/-- `CloudWatchLogsService.extractAction`. -/
def extractAction (pm : Json) (raw : String) : String :=
  match firstTruthy [jsonGet pm "eventName", jsonGet pm "action", jsonGet pm "operation"] with
  | some v => jsonFieldString v
  | none => let t := extractActionFromText raw; if t ≠ "" then t else "Unknown"

/-- `CloudWatchLogsService.extractResource`. -/
def extractResource (pm : Json) (raw : String) : String :=
  match firstTruthy
    [(jsonGet pm "resources").bind (fun r => (jsonIndex r 0).bind (fun x => jsonGet x "ARN")),
     jsonGet pm "resourceARN", jsonGet pm "resource",
     jsonGet pm "bucketName", jsonGet pm "key"] with
  | some v => jsonFieldString v
  | none => let t := extractResourceFromText raw; if t ≠ "" then t else "Unknown"

/-- `CloudWatchLogsService.extractPrincipal`. -/
def extractPrincipal (pm : Json) (raw : String) : String :=
  match firstTruthy
    [(jsonGet pm "userIdentity").bind (fun u => jsonGet u "arn"),
     (jsonGet pm "userIdentity").bind (fun u => jsonGet u "userName"),
     jsonGet pm "principal", jsonGet pm "user"] with
  | some v => jsonFieldString v
  | none => let t := extractPrincipalFromText raw; if t ≠ "" then t else "Unknown"

/-- `CloudWatchLogsService.extractErrorCode`. -/
def extractErrorCode (pm : Json) (raw : String) : String :=
  match firstTruthy [jsonGet pm "errorCode", jsonGet pm "errorMessage", jsonGet pm "error"] with
  | some v => jsonFieldString v
  | none => let t := extractErrorCodeFromText raw; if t ≠ "" then t else "Unknown"

/-! ## `parsePermissionDenial` -/

/-- A CloudWatch `FilteredLogEvent` as the parser consumes it — the spec's
`LogRecord`: raw message, epoch-millisecond timestamp, stream name. -/
structure FilteredLogEvent where
  message : String
  timestamp : Int
  logStreamName : String
  deriving DecidableEq

/-- `new Date(ms).toISOString()`.  No claim observes timestamps, so the
ISO-8601 calendar rendering is modelled as the decimal rendering of the
epoch value (any injective rendering would do). -/
def dateToIso (ms : Int) : String := toString ms

/-- The plain-text branch of `parsePermissionDenial` (the `catch` arm). -/
def textualDenial (event : FilteredLogEvent) (logGroupName : String) : PermissionDenial :=
  { timestamp := dateToIso event.timestamp,
    logGroup := logGroupName,
    logStream := if event.logStreamName = "" then "unknown" else event.logStreamName,
    message := event.message,
    action := extractActionFromText event.message,
    resource := extractResourceFromText event.message,
    principal := extractPrincipalFromText event.message,
    errorCode := extractErrorCodeFromText event.message,
    sourceIp := none,
    userAgent := none }

/-- The structured branch of `parsePermissionDenial` (successful
`JSON.parse`). -/
def structuredDenial (pm : Json) (event : FilteredLogEvent) (logGroupName : String) :
    PermissionDenial :=
  { timestamp := dateToIso event.timestamp,
    logGroup := logGroupName,
    logStream := if event.logStreamName = "" then "unknown" else event.logStreamName,
    message := event.message,
    action := extractAction pm event.message,
    resource := extractResource pm event.message,
    principal := extractPrincipal pm event.message,
    errorCode := extractErrorCode pm event.message,
    sourceIp := (firstTruthy [jsonGet pm "sourceIPAddress", jsonGet pm "sourceIp"]).map
      jsonFieldString,
    userAgent := (firstTruthy [jsonGet pm "userAgent"]).map jsonFieldString }

/-- `CloudWatchLogsService.parsePermissionDenial`.  The leading guard is the
JavaScript falsy test on `event.message`, `event.timestamp` and
`event.logStreamName`.  When `JSON.parse` yields `null`, the member access
`parsedMessage.eventName` inside the `try` block throws a `TypeError`,
which the `catch` arm converts into the plain-text branch. -/
def parsePermissionDenial (event : FilteredLogEvent) (logGroupName : String) :
    Option PermissionDenial :=
  if event.message = "" ∨ event.timestamp = 0 ∨ event.logStreamName = "" then none
  else if ¬ hasPermissionDenialPattern event.message then none
  else
    match jsonParse event.message with
    | some Json.null => some (textualDenial event logGroupName)
    | some pm => some (structuredDenial pm event logGroupName)
    | none => some (textualDenial event logGroupName)

/-- A well-formed ordered map: each key occurs in at most one row, and
`mapGet` returns exactly that row.  Every map built through `mapSet` from
`[]` satisfies this. -/
def mapOneEntryPerKey {V : Type} (m : List (String × V)) : Prop :=
  ∀ k, match mapGet m k with
    | none => m.filter (fun en => en.1 == k) = []
    | some e => m.filter (fun en => en.1 == k) = [(k, e)]

/-! ## Concrete fixtures used by witnesses and counterexamples -/

/-- A CloudFormation resource for concrete aggregation runs. -/
def sampleResource : CloudFormationResource :=
  { logicalId := "MyFunction",
    physicalId := "my-function",
    resourceType := "AWS::Lambda::Function",
    logGroups := ["/aws/lambda/my-function"] }

/-- A parsed denial for concrete aggregation runs. -/
def sampleDenial : PermissionDenial :=
  { timestamp := "2024-01-01T00:00:00Z",
    logGroup := "/aws/lambda/my-function",
    logStream := "s1",
    message := "AccessDenied",
    action := "s3:GetObject",
    resource := "arn:aws:s3:::bucket",
    principal := "arn:aws:iam::123456789012:role/r",
    errorCode := "AccessDenied" }

/-- A log-analysis result carrying `sampleDenial` twice, with an associated
resource present. -/
def sampleResult : LogAnalysisResult :=
  { logGroupName := "/aws/lambda/my-function",
    associatedResource := some sampleResource,
    permissionDenials := [sampleDenial, sampleDenial],
    totalEvents := 2 }

/-- An observed permission (frequency 1): kept by both `generateIAMPolicy`
and `generateCDKCode`. -/
def samplePermission : SuggestedPermission :=
  { action := "s3:getobject",
    resource := "arn:aws:s3:::bucket",
    effect := "Allow",
    condition := none,
    reasoning := "Permission denied in lg: AccessDenied",
    frequency := 1,
    severity := Severity.medium }

/-- A zero-frequency `Medium` permission: kept by `generateIAMPolicy`
(`frequency == 0 && severity == Low` fails) but dropped by
`generateCDKCode`'s `relevantPermissions` filter. -/
def sampleZeroMediumPermission : SuggestedPermission :=
  { action := "s3:getobject",
    resource := "arn:aws:s3:::bucket",
    effect := "Allow",
    condition := none,
    reasoning := "speculative",
    frequency := 0,
    severity := Severity.medium }

/-! # Theorems -/

/-! ## String-search bridging lemmas -/

theorem listInfixB_iff (pat l : List Char) : listInfixB pat l = true ↔ pat <:+: l := by
  induction l with
  | nil =>
    simp only [listInfixB, List.isEmpty_iff]
    constructor
    · intro h; simp [h]
    · intro h; exact List.eq_nil_of_infix_nil h
  | cons c t ih =>
    simp only [listInfixB, Bool.or_eq_true, List.isPrefixOf_iff_prefix, ih,
      List.infix_cons_iff]

theorem sIncludes_iff (s pat : String) : sIncludes s pat = true ↔ pat.data <:+: s.data :=
  listInfixB_iff pat.data s.data

theorem sIncludes_eq_false {s pat : String} (h : ¬ pat.data <:+: s.data) :
    sIncludes s pat = false := by
  cases hb : sIncludes s pat with
  | false => rfl
  | true => exact absurd ((sIncludes_iff s pat).mp hb) h

theorem sEndsWith_iff (s pat : String) : sEndsWith s pat = true ↔ pat.data <:+ s.data := by
  simp [sEndsWith, List.isSuffixOf_iff_suffix]

theorem sStartsWith_iff (s pat : String) : sStartsWith s pat = true ↔ pat.data <+: s.data := by
  simp [sStartsWith, List.isPrefixOf_iff_prefix]

/-! ## Occurrence decomposition over concatenation -/

theorem prefix_append_cases {p a b : List Char} (h : p <+: a ++ b) :
    p <+: a ∨ ∃ r, p = a ++ r ∧ r <+: b := by
  rcases le_or_lt p.length a.length with hle | hlt
  · left
    have hp := List.prefix_iff_eq_take.mp h
    rw [List.take_append_of_le_length hle] at hp
    exact hp ▸ List.take_prefix _ _
  · right
    have hp := List.prefix_iff_eq_take.mp h
    rw [List.take_append_eq_append_take, List.take_of_length_le (le_of_lt hlt)] at hp
    exact ⟨b.take (p.length - a.length), hp, List.take_prefix _ _⟩

theorem infix_append_decomp {p : List Char} :
    ∀ {a b : List Char}, p <:+: a ++ b →
      p <:+: a ∨ p <:+: b ∨
        ∃ p₁ p₂, p = p₁ ++ p₂ ∧ p₁ ≠ [] ∧ p₂ ≠ [] ∧ p₁ <:+ a ∧ p₂ <+: b := by
  intro a
  induction a with
  | nil => intro b h; right; left; simpa using h
  | cons x a' ih =>
    intro b h
    rcases List.infix_cons_iff.mp h with hpre | hinf
    · have hpre' : p <+: (x :: a') ++ b := by simpa using hpre
      rcases prefix_append_cases hpre' with hpa | ⟨r, hpr, hrb⟩
      · exact Or.inl hpa.isInfix
      · rcases List.eq_nil_or_concat r with rfl | _
        · left; rw [hpr, List.append_nil]
        · refine Or.inr (Or.inr ⟨x :: a', r, hpr, by simp, ?_, List.suffix_rfl, hrb⟩)
          rintro rfl
          simp at *
    · rcases ih hinf with hpa | hpb | ⟨p₁, p₂, hp, h1, h2, hsuf, hpre2⟩
      · exact Or.inl (List.infix_cons hpa)
      · exact Or.inr (Or.inl hpb)
      · exact Or.inr (Or.inr ⟨p₁, p₂, hp, h1, h2, hsuf.trans (List.suffix_cons x a'), hpre2⟩)

theorem infix_of_infix_append_right {p a b : List Char} (hp : p ≠ [])
    (hdisj : ∀ c ∈ b, c ∉ p) (h : p <:+: a ++ b) : p <:+: a := by
  rcases infix_append_decomp h with h' | h' | ⟨p₁, p₂, hpe, _, h2, _, hpre⟩
  · exact h'
  · cases p with
    | nil => exact absurd rfl hp
    | cons c cs =>
      exact absurd (List.mem_cons_self c cs) (hdisj c (h'.subset (List.mem_cons_self c cs)))
  · cases p₂ with
    | nil => exact absurd rfl h2
    | cons d ds =>
      have hdb : d ∈ b := hpre.subset (List.mem_cons_self d ds)
      have hdp : d ∈ p := by rw [hpe]; exact List.mem_append_right _ (List.mem_cons_self d ds)
      exact absurd hdp (hdisj d hdb)

theorem infix_of_infix_append_left {p a b : List Char} (hp : p ≠ [])
    (hdisj : ∀ c ∈ a, c ∉ p) (h : p <:+: a ++ b) : p <:+: b := by
  rcases infix_append_decomp h with h' | h' | ⟨p₁, p₂, hpe, h1, _, hsuf, _⟩
  · cases p with
    | nil => exact absurd rfl hp
    | cons c cs =>
      exact absurd (List.mem_cons_self c cs) (hdisj c (h'.subset (List.mem_cons_self c cs)))
  · exact h'
  · cases p₁ with
    | nil => exact absurd rfl h1
    | cons d ds =>
      have hda : d ∈ a := hsuf.subset (List.mem_cons_self d ds)
      have hdp : d ∈ p := by rw [hpe]; exact List.mem_append_left _ (List.mem_cons_self d ds)
      exact absurd hdp (hdisj d hda)

theorem infix_append_extend_right {p a : List Char} (b : List Char) (h : p <:+: a) :
    p <:+: a ++ b := h.trans (List.prefix_append a b).isInfix

theorem infix_append_extend_left {p b : List Char} (a : List Char) (h : p <:+: b) :
    p <:+: a ++ b := h.trans (List.suffix_append a b).isInfix

/-! ## `replFirst` characterization -/

theorem replFirst_star_spec (repl : List Char) :
    ∀ {l : List Char}, '*' ∈ l →
      ∃ pre post, l = pre ++ '*' :: post ∧ '*' ∉ pre ∧
        replFirst ['*'] repl l = pre ++ repl ++ post := by
  intro l
  induction l with
  | nil => intro h; cases h
  | cons c t ih =>
    intro h
    by_cases hc : c = '*'
    · subst hc
      refine ⟨[], t, rfl, by simp, ?_⟩
      simp [replFirst, List.isPrefixOf]
    · have ht : '*' ∈ t := by
        rcases List.mem_cons.mp h with h' | h'
        · exact absurd h'.symm hc
        · exact h'
      obtain ⟨pre, post, heq, hnp, hrepl⟩ := ih ht
      refine ⟨c :: pre, post, by simp [heq], ?_, ?_⟩
      · intro hmem
        rcases List.mem_cons.mp hmem with h' | h'
        · exact hc h'.symm
        · exact hnp h'
      · have hcne : ('*' == c) = false := by simp [Ne.symm hc]
        simp [replFirst, List.isPrefixOf, hcne, hrepl]

/-! ## `optimizeResourceArn` branch lemmas -/

theorem optimize_eq_of_sentinel {r : String} (h : r = "Unknown" ∨ r = "*") :
    optimizeResourceArn r = "*" := by
  unfold optimizeResourceArn; rw [if_pos h]

theorem optimize_eq_of_s3 {r : String} (h1 : ¬ (r = "Unknown" ∨ r = "*"))
    (h2 : sIncludes r "arn:aws:s3:::" ∧ ¬ sIncludes r "/*") :
    optimizeResourceArn r = r ++ "/*" := by
  unfold optimizeResourceArn; rw [if_neg h1, if_pos h2]

theorem optimize_eq_replace {r : String} (h1 : ¬ (r = "Unknown" ∨ r = "*"))
    (h2 : ¬ (sIncludes r "arn:aws:s3:::" ∧ ¬ sIncludes r "/*"))
    (h3 : sIncludes r "*" = true)
    (h4 : sIncludes r "arn:aws:logs:" ∧ sEndsWith r "*")
    (h5 : ¬ sIncludes r "log-group:" = true) :
    optimizeResourceArn r = ⟨replFirst "*".data "log-group:*".data r.data⟩ := by
  unfold optimizeResourceArn; rw [if_neg h1, if_neg h2, if_pos h3, if_pos h4, if_neg h5]

theorem optimize_eq_self_of {r : String} (h1 : ¬ (r = "Unknown" ∨ r = "*"))
    (h2 : ¬ (sIncludes r "arn:aws:s3:::" ∧ ¬ sIncludes r "/*"))
    (h3 : sIncludes r "arn:aws:logs:" ∧ sEndsWith r "*" → sIncludes r "log-group:" = true) :
    optimizeResourceArn r = r := by
  unfold optimizeResourceArn
  rw [if_neg h1, if_neg h2]
  by_cases h4 : sIncludes r "*" = true
  · rw [if_pos h4]
    by_cases h5 : sIncludes r "arn:aws:logs:" ∧ sEndsWith r "*"
    · rw [if_pos h5, if_pos (h3 h5)]
    · rw [if_neg h5]
  · rw [if_neg h4]

theorem fixed_after_s3_extend {r : String} (hs3 : sIncludes r "arn:aws:s3:::" = true)
    (hlogs : sIncludes r "arn:aws:logs:" = false) :
    optimizeResourceArn (r ++ "/*") = r ++ "/*" := by
  have hinf : ("arn:aws:s3:::" : String).data <:+: (r ++ "/*").data := by
    rw [String.data_append]
    exact infix_append_extend_right _ ((sIncludes_iff _ _).mp hs3)
  apply optimize_eq_self_of
  · rintro (h | h) <;> rw [h] at hinf <;> exact absurd hinf (by decide)
  · rintro ⟨-, hno⟩
    apply hno
    rw [sIncludes_iff, String.data_append]
    exact (List.suffix_append r.data ("/*" : String).data).isInfix
  · rintro ⟨hl, -⟩
    exfalso
    have hl' := (sIncludes_iff _ _).mp hl
    rw [String.data_append] at hl'
    have hr : ("arn:aws:logs:" : String).data <:+: r.data :=
      infix_of_infix_append_right (by decide) (by decide) hl'
    rw [(sIncludes_iff _ _).mpr hr] at hlogs
    cases hlogs

theorem fixed_after_logs_replace {r : String}
    (hs3 : sIncludes r "arn:aws:s3:::" = false)
    (hstar : sIncludes r "*" = true) :
    optimizeResourceArn ⟨replFirst "*".data "log-group:*".data r.data⟩ =
      ⟨replFirst "*".data "log-group:*".data r.data⟩ := by
  have hmem : '*' ∈ r.data := by
    have := (sIncludes_iff r "*").mp hstar
    exact this.subset (by simp)
  obtain ⟨pre, post, heq, -, hrepl⟩ := replFirst_star_spec "log-group:*".data hmem
  set r' : String := ⟨replFirst "*".data "log-group:*".data r.data⟩ with hr'
  have hdata : r'.data = pre ++ "log-group:*".data ++ post := by
    show replFirst "*".data "log-group:*".data r.data = _
    simpa using hrepl
  have hins : ("log-group:*" : String).data = ("log-group:" : String).data ++ ['*'] := by decide
  have hlg : ("log-group:" : String).data <:+: r'.data := by
    refine ⟨pre, '*' :: post, ?_⟩
    rw [hdata, hins]
    simp
  have hs3r : ¬ ("arn:aws:s3:::" : String).data <:+: r'.data := by
    intro hinf
    rw [hdata, List.append_assoc] at hinf
    have hs3rdata : ¬ ("arn:aws:s3:::" : String).data <:+: r.data := by
      intro hin
      rw [(sIncludes_iff _ _).mpr hin] at hs3
      cases hs3
    rcases infix_append_decomp hinf with h' | h' | ⟨q₁, q₂, hq, hq1, hq2, -, hpre2⟩
    · exact hs3rdata (by rw [heq]; exact infix_append_extend_right _ h')
    · rcases infix_append_decomp h' with h'' | h'' | ⟨q₁, q₂, hq, hq1, -, hsuf, -⟩
      · have := h''.length_le
        revert this; decide
      · refine hs3rdata ?_
        rw [heq, ← List.singleton_append, ← List.append_assoc]
        exact infix_append_extend_left _ h''
      · cases q₁ with
        | nil => exact absurd rfl hq1
        | cons d ds =>
          have hda : d ∈ ("log-group:*" : String).data :=
            hsuf.subset (List.mem_cons_self d ds)
          have hd : d = 'a' := by
            have : ("arn:aws:s3:::" : String).data = 'a' :: "rn:aws:s3:::".data := by decide
            rw [this] at hq
            exact (List.cons.injEq _ _ _ _ ▸ hq).1.symm
          rw [hd] at hda
          revert hda; decide
    · cases q₂ with
      | nil => exact absurd rfl hq2
      | cons d ds =>
        obtain ⟨w, hw⟩ := hpre2
        have hins' : ("log-group:*" : String).data ++ post = 'l' :: ("og-group:*".data ++ post) := by
          simp [show ("log-group:*" : String).data = 'l' :: "og-group:*".data by decide]
        rw [hins'] at hw
        have hd : d = 'l' := by
          have := hw
          simp only [List.cons_append] at this
          exact (List.cons.injEq _ _ _ _ ▸ this).1
        have hdp : d ∈ ("arn:aws:s3:::" : String).data := by
          rw [hq]; exact List.mem_append_right _ (List.mem_cons_self d ds)
        rw [hd] at hdp
        revert hdp; decide
  apply optimize_eq_self_of
  · rintro (h | h) <;> rw [h] at hlg <;> exact absurd hlg (by decide)
  · rintro ⟨hb, -⟩
    exact hs3r ((sIncludes_iff _ _).mp hb)
  · intro _
    exact (sIncludes_iff _ _).mpr hlg

/-! ## C1: `optimizeResourceArn` on the sentinels -/

/-- C1 counterexample: the claim says `optimize("Unknown") = "Unknown"`, but
the source returns `'*'` for both sentinels, so `"Unknown"` is *not*
returned unchanged. -/
theorem optimizeResourceArn_unknown_changed :
    optimizeResourceArn "Unknown" ≠ "Unknown" := by decide

/-- C1 (amended): both sentinel inputs map to `"*"`: `"*"` is returned
unchanged while `"Unknown"` is collapsed to `"*"`. -/
theorem optimizeResourceArn_sentinels :
    optimizeResourceArn "Unknown" = "*" ∧ optimizeResourceArn "*" = "*" := by decide

/-! ## C9: idempotence of `optimizeResourceArn` -/

/-- C9 counterexample: idempotence fails for a resource containing both the
S3 marker and the logs marker — the first pass appends `/*`, the second
pass then rewrites the new trailing `*` to `log-group:*`. -/
theorem optimizeResourceArn_not_idempotent :
    optimizeResourceArn (optimizeResourceArn "arn:aws:s3:::arn:aws:logs:x") ≠
      optimizeResourceArn "arn:aws:s3:::arn:aws:logs:x" := by decide

/-- C9 (amended): `optimizeResourceArn` is idempotent for every resource
string that does not contain both the substring `arn:aws:s3:::` and the
substring `arn:aws:logs:`. -/
theorem optimizeResourceArn_idempotent (r : String)
    (h : ¬ (sIncludes r "arn:aws:s3:::" = true ∧ sIncludes r "arn:aws:logs:" = true)) :
    optimizeResourceArn (optimizeResourceArn r) = optimizeResourceArn r := by
  by_cases h1 : r = "Unknown" ∨ r = "*"
  · rw [optimize_eq_of_sentinel h1]
    exact optimize_eq_of_sentinel (Or.inr rfl)
  · by_cases h2 : sIncludes r "arn:aws:s3:::" ∧ ¬ sIncludes r "/*"
    · rw [optimize_eq_of_s3 h1 h2]
      have hlogs : sIncludes r "arn:aws:logs:" = false := by
        cases hb : sIncludes r "arn:aws:logs:" with
        | false => rfl
        | true => exact absurd ⟨h2.1, hb⟩ h
      exact fixed_after_s3_extend h2.1 hlogs
    · by_cases h4 : sIncludes r "arn:aws:logs:" ∧ sEndsWith r "*"
      · by_cases h5 : sIncludes r "log-group:" = true
        · have hself := optimize_eq_self_of h1 h2 (fun _ => h5)
          rw [hself]
          exact hself
        · have hstar : sIncludes r "*" = true := by
            rw [sIncludes_iff]
            exact ((sEndsWith_iff r "*").mp h4.2).isInfix
          rw [optimize_eq_replace h1 h2 hstar h4 h5]
          have hs3 : sIncludes r "arn:aws:s3:::" = false := by
            cases hb : sIncludes r "arn:aws:s3:::" with
            | false => rfl
            | true => exact absurd ⟨hb, h4.1⟩ h
          exact fixed_after_logs_replace hs3 hstar
      · have hself := optimize_eq_self_of h1 h2 (fun hD => absurd hD h4)
        rw [hself]
        exact hself

/-- C9 witness: the amended idempotence at a plain S3 bucket ARN. -/
theorem optimizeResourceArn_idempotent_witness :
    optimizeResourceArn (optimizeResourceArn "arn:aws:s3:::bucket") =
      optimizeResourceArn "arn:aws:s3:::bucket" :=
  optimizeResourceArn_idempotent "arn:aws:s3:::bucket" (by decide)

/-! ## Ordered-map lemmas -/

theorem mapGet_cons {V : Type} (x : String × V) (t : List (String × V)) (k : String) :
    mapGet (x :: t) k = if x.1 == k then some x.2 else mapGet t k := by
  cases h : (x.1 == k) with
  | true => simp [mapGet, List.find?_cons_of_pos, h]
  | false => simp [mapGet, List.find?_cons_of_neg, h]

theorem mapGet_mapSet_self {V : Type} (m : List (String × V)) (k : String) (v : V) :
    mapGet (mapSet m k v) k = some v := by
  induction m with
  | nil => simp [mapSet, mapGet_cons]
  | cons e t ih =>
    obtain ⟨k', v'⟩ := e
    by_cases h : (k' == k) = true
    · rw [mapSet, if_pos h, mapGet_cons]
      simp
    · rw [mapSet, if_neg h, mapGet_cons]
      simp only [h, if_false]
      exact ih

theorem mapGet_mapSet_ne {V : Type} (m : List (String × V)) (k : String) (v : V)
    (k' : String) (h : k ≠ k') : mapGet (mapSet m k v) k' = mapGet m k' := by
  induction m with
  | nil =>
    simp [mapSet, mapGet_cons, mapGet]
    intro hk
    exact absurd hk h
  | cons e t ih =>
    obtain ⟨k₁, v₁⟩ := e
    by_cases h₁ : (k₁ == k) = true
    · rw [mapSet, if_pos h₁, mapGet_cons, mapGet_cons]
      have hk : k₁ = k := by simpa using h₁
      subst hk
      have h₂ : (k₁ == k') = false := by simpa using h
      simp [h₂]
    · rw [mapSet, if_neg h₁, mapGet_cons, mapGet_cons]
      by_cases h₂ : (k₁ == k') = true
      · rw [if_pos h₂, if_pos h₂]
      · rw [if_neg h₂, if_neg h₂]
        exact ih

theorem filter_mapSet_ne {V : Type} (m : List (String × V)) (k : String) (v : V)
    (k' : String) (h : k ≠ k') :
    (mapSet m k v).filter (fun en => en.1 == k') = m.filter (fun en => en.1 == k') := by
  have h₂ : (k == k') = false := by simpa using h
  induction m with
  | nil => simp [mapSet, List.filter, h₂]
  | cons e t ih =>
    obtain ⟨k₁, v₁⟩ := e
    by_cases h₁ : (k₁ == k) = true
    · have hk : k₁ = k := by simpa using h₁
      subst hk
      rw [mapSet, if_pos h₁]
      simp [List.filter, h₂]
    · rw [mapSet, if_neg h₁]
      simp only [List.filter]
      rw [ih]

theorem filter_mapSet_self_of_none {V : Type} (m : List (String × V)) (k : String) (v : V)
    (h : mapGet m k = none) :
    (mapSet m k v).filter (fun en => en.1 == k) =
      m.filter (fun en => en.1 == k) ++ [(k, v)] := by
  induction m with
  | nil => simp [mapSet, List.filter]
  | cons e t ih =>
    obtain ⟨k₁, v₁⟩ := e
    rw [mapGet_cons] at h
    by_cases h₁ : (k₁ == k) = true
    · rw [if_pos h₁] at h
      cases h
    · rw [if_neg h₁] at h
      rw [mapSet, if_neg h₁]
      simp only [List.filter, h₁]
      exact ih h

theorem filter_mapSet_self_of_single {V : Type} (m : List (String × V)) (k : String)
    (v e : V) (h : m.filter (fun en => en.1 == k) = [(k, e)]) :
    (mapSet m k v).filter (fun en => en.1 == k) = [(k, v)] := by
  induction m with
  | nil => simp [List.filter] at h
  | cons x t ih =>
    obtain ⟨k₁, v₁⟩ := x
    by_cases h₁ : (k₁ == k) = true
    · have hk : k₁ = k := by simpa using h₁
      subst hk
      rw [mapSet, if_pos h₁]
      simp only [List.filter, h₁] at h ⊢
      have := (List.cons.injEq _ _ _ _ ▸ h).2
      simp [this]
    · rw [mapSet, if_neg h₁]
      simp only [List.filter, h₁] at h ⊢
      exact ih h

theorem mapOneEntryPerKey_nil {V : Type} : mapOneEntryPerKey ([] : List (String × V)) := by
  intro k
  simp [mapGet, List.filter]

theorem mapOneEntryPerKey_mapSet {V : Type} {m : List (String × V)}
    (h : mapOneEntryPerKey m) (k : String) (v : V) : mapOneEntryPerKey (mapSet m k v) := by
  intro k'
  by_cases hk : k = k'
  · subst hk
    rw [mapGet_mapSet_self]
    have hm := h k
    cases hg : mapGet m k with
    | none =>
      rw [hg] at hm
      rw [filter_mapSet_self_of_none m k v hg, hm]
      rfl
    | some e =>
      rw [hg] at hm
      exact filter_mapSet_self_of_single m k v e hm
  · rw [mapGet_mapSet_ne m k v k' hk, filter_mapSet_ne m k v k' hk]
    exact h k'

/-! ## The `analyzeLogs` fold: per-key view -/

theorem mapGet_mergeDenial_self (result : LogAnalysisResult) (m : List (String × PermEntry))
    (d : PermissionDenial) :
    mapGet (mergeDenial result m d) (keyOfDenial d) =
      some (match mapGet m (keyOfDenial d) with
        | none => freshEntry (result, d)
        | some e => extendEntry e (result, d)) := by
  unfold mergeDenial
  cases hg : mapGet m (keyOfDenial d) with
  | none => simp only [hg]; exact mapGet_mapSet_self _ _ _
  | some e => simp only [hg]; exact mapGet_mapSet_self _ _ _

theorem mapGet_mergeDenial_ne (result : LogAnalysisResult) (m : List (String × PermEntry))
    (d : PermissionDenial) (k : String) (h : keyOfDenial d ≠ k) :
    mapGet (mergeDenial result m d) k = mapGet m k := by
  unfold mergeDenial
  cases hg : mapGet m (keyOfDenial d) with
  | none => simp only [hg]; exact mapGet_mapSet_ne _ _ _ _ h
  | some e => simp only [hg]; exact mapGet_mapSet_ne _ _ _ _ h

theorem mergeDenial_preserves_inv (result : LogAnalysisResult)
    {m : List (String × PermEntry)} (h : mapOneEntryPerKey m) (d : PermissionDenial) :
    mapOneEntryPerKey (mergeDenial result m d) := by
  unfold mergeDenial
  cases hg : mapGet m (keyOfDenial d) with
  | none => simp only [hg]; exact mapOneEntryPerKey_mapSet h _ _
  | some e => simp only [hg]; exact mapOneEntryPerKey_mapSet h _ _

theorem buildPermissionMap_eq_foldl_pairs (results : List LogAnalysisResult) :
    buildPermissionMap results =
      (denialPairs results).foldl (fun m q => mergeDenial q.1 m q.2) [] := by
  suffices h : ∀ (m : List (String × PermEntry)),
      results.foldl (fun m result => result.permissionDenials.foldl (mergeDenial result) m) m =
        (denialPairs results).foldl (fun m q => mergeDenial q.1 m q.2) m from h []
  induction results with
  | nil => intro m; rfl
  | cons r rs ih =>
    intro m
    have hdp : denialPairs (r :: rs) =
        r.permissionDenials.map (fun d => (r, d)) ++ denialPairs rs := by
      simp [denialPairs]
    rw [List.foldl_cons, ih, hdp, List.foldl_append, List.foldl_map]

theorem foldl_merge_get (ps : List (LogAnalysisResult × PermissionDenial)) :
    ∀ (m : List (String × PermEntry)) (k : String),
      mapGet (ps.foldl (fun m q => mergeDenial q.1 m q.2) m) k =
        mergeKeyAll (mapGet m k) (ps.filter (fun q => keyOfDenial q.2 == k)) := by
  induction ps with
  | nil => intro m k; rfl
  | cons q t ih =>
    intro m k
    rw [List.foldl_cons, ih]
    by_cases hk : keyOfDenial q.2 = k
    · subst hk
      rw [List.filter_cons_of_pos (by simp)]
      rw [mapGet_mergeDenial_self]
      rfl
    · rw [List.filter_cons_of_neg (by simpa using hk)]
      rw [mapGet_mergeDenial_ne _ _ _ _ hk]

theorem foldl_merge_inv (ps : List (LogAnalysisResult × PermissionDenial)) :
    ∀ {m : List (String × PermEntry)}, mapOneEntryPerKey m →
      mapOneEntryPerKey (ps.foldl (fun m q => mergeDenial q.1 m q.2) m) := by
  induction ps with
  | nil => intro m h; exact h
  | cons q t ih =>
    intro m h
    rw [List.foldl_cons]
    exact ih (mergeDenial_preserves_inv q.1 h q.2)

theorem mergeKeyAll_some (t : List (LogAnalysisResult × PermissionDenial)) :
    ∀ e : PermEntry,
      mergeKeyAll (some e) t =
        some { e with
          frequency := e.frequency + t.length,
          reasoning := e.reasoning ++ t.map (fun q => additionalReason q.1 q.2),
          associatedResources :=
            e.associatedResources ++ t.flatMap (fun q => assocIds q.1) } := by
  induction t with
  | nil => intro e; simp [mergeKeyAll]
  | cons q t ih =>
    intro e
    rw [show mergeKeyAll (some e) (q :: t) = mergeKeyAll (some (extendEntry e q)) t from rfl,
      ih]
    simp only [extendEntry, List.flatMap_cons, List.map_cons, List.length_cons]
    congr 1
    simp [List.append_assoc]
    omega

/-! ## C2: merge-step frame -/

/-- C2 counterexample: the claim says only `frequency` and `reasoning`
change when a denial merges into an existing key, but when the enclosing
result has an associated resource, the merge also pushes its `logicalId`
onto `associatedResources` — here the field grows from one to two entries
on the merge. -/
theorem mergeDenial_changes_associatedResources :
    (mapGet (mergeDenial sampleResult (mergeDenial sampleResult [] sampleDenial) sampleDenial)
        (keyOfDenial sampleDenial)).map (fun e => e.associatedResources) =
      some ["MyFunction", "MyFunction"] ∧
    (mapGet (mergeDenial sampleResult [] sampleDenial) (keyOfDenial sampleDenial)).map
        (fun e => e.associatedResources) = some ["MyFunction"] := by decide

/-- C2 (amended): when a denial merges into an already-existing key, the
row's `severity`, `action` and `resource` are exactly as computed at the
first occurrence; `frequency` is incremented by 1, `reasoning` gains one
appended entry, and `associatedResources` gains the enclosing result's
associated-resource id when present (and is unchanged when absent). -/
theorem mergeDenial_frame (result : LogAnalysisResult) (d : PermissionDenial)
    (m : List (String × PermEntry)) (e : PermEntry)
    (h : mapGet m (keyOfDenial d) = some e) :
    mapGet (mergeDenial result m d) (keyOfDenial d) =
      some { action := e.action,
             frequency := e.frequency + 1,
             resource := e.resource,
             reasoning := e.reasoning ++ [additionalReason result d],
             severity := e.severity,
             associatedResources := e.associatedResources ++ assocIds result } := by
  rw [mapGet_mergeDenial_self, h]
  rfl

/-- C2 witness: the frame theorem applied to a concrete one-row map. -/
theorem mergeDenial_frame_witness :
    mapGet (mergeDenial sampleResult (mergeDenial sampleResult [] sampleDenial) sampleDenial)
        (keyOfDenial sampleDenial) =
      some { action := (freshEntry (sampleResult, sampleDenial)).action,
             frequency := (freshEntry (sampleResult, sampleDenial)).frequency + 1,
             resource := (freshEntry (sampleResult, sampleDenial)).resource,
             reasoning := (freshEntry (sampleResult, sampleDenial)).reasoning ++
               [additionalReason sampleResult sampleDenial],
             severity := (freshEntry (sampleResult, sampleDenial)).severity,
             associatedResources :=
               (freshEntry (sampleResult, sampleDenial)).associatedResources ++
                 assocIds sampleResult } :=
  mergeDenial_frame sampleResult sampleDenial (mergeDenial sampleResult [] sampleDenial)
    (freshEntry (sampleResult, sampleDenial)) (by decide)

/-! ## C3: aggregation counts -/

/-- C3: in any batch, the denials that normalize to a key `k` produce
exactly one map row for `k`; its `frequency` equals their count `N`, its
`reasoning` is exactly the first-occurrence entry followed by one appended
entry per later merge (length `N`, duplicates preserved verbatim). -/
theorem analyzeLogs_aggregation_counts (results : List LogAnalysisResult) (k : String)
    (q₀ : LogAnalysisResult × PermissionDenial)
    (qrest : List (LogAnalysisResult × PermissionDenial))
    (hps : (denialPairs results).filter (fun q => keyOfDenial q.2 == k) = q₀ :: qrest) :
    ∃ e : PermEntry,
      mapGet (buildPermissionMap results) k = some e ∧
      (buildPermissionMap results).filter (fun en => en.1 == k) = [(k, e)] ∧
      e.frequency = ((q₀ :: qrest).length : Int) ∧
      e.reasoning =
        firstReason q₀.1 q₀.2 :: qrest.map (fun q => additionalReason q.1 q.2) ∧
      e.reasoning.length = (q₀ :: qrest).length := by
  have hget := foldl_merge_get (denialPairs results) [] k
  rw [hps] at hget
  rw [buildPermissionMap_eq_foldl_pairs]
  have hget' : mapGet ((denialPairs results).foldl (fun m q => mergeDenial q.1 m q.2) []) k =
      mergeKeyAll (some (freshEntry q₀)) qrest := hget
  rw [mergeKeyAll_some] at hget'
  refine ⟨_, hget', ?_, ?_, ?_, ?_⟩
  · have hinv := foldl_merge_inv (denialPairs results) (mapOneEntryPerKey_nil) (m := [])
    have := hinv k
    rw [hget'] at this
    exact this
  · simp [freshEntry]
    omega
  · simp [freshEntry]
  · simp [freshEntry]

/-- C3 witness: two denials with the same key aggregate to one row with
frequency 2 and two verbatim reasoning entries. -/
theorem analyzeLogs_aggregation_counts_witness :
    (denialPairs [sampleResult]).filter
        (fun q => keyOfDenial q.2 == keyOfDenial sampleDenial) =
      [(sampleResult, sampleDenial), (sampleResult, sampleDenial)] ∧
    ∃ e : PermEntry,
      mapGet (buildPermissionMap [sampleResult]) (keyOfDenial sampleDenial) = some e ∧
      (buildPermissionMap [sampleResult]).filter
          (fun en => en.1 == keyOfDenial sampleDenial) = [(keyOfDenial sampleDenial, e)] ∧
      e.frequency = (([(sampleResult, sampleDenial), (sampleResult, sampleDenial)].length : Nat) : Int) ∧
      e.reasoning = firstReason sampleResult sampleDenial ::
        [(sampleResult, sampleDenial)].map (fun q => additionalReason q.1 q.2) ∧
      e.reasoning.length = [(sampleResult, sampleDenial), (sampleResult, sampleDenial)].length :=
  ⟨by decide,
   analyzeLogs_aggregation_counts [sampleResult] (keyOfDenial sampleDenial)
     (sampleResult, sampleDenial) [(sampleResult, sampleDenial)] (by decide)⟩

/-! ## Set/sort membership lemmas -/

theorem mem_setAdd_self (l : List String) (x : String) : x ∈ setAdd l x := by
  unfold setAdd
  by_cases h : l.contains x
  · rw [if_pos h]
    simpa using h
  · rw [if_neg h]
    simp

theorem mem_setAdd_mono {l : List String} {y : String} (x : String) (h : y ∈ l) :
    y ∈ setAdd l x := by
  unfold setAdd
  by_cases hc : l.contains x
  · rw [if_pos hc]; exact h
  · rw [if_neg hc]; exact List.mem_append_left _ h

theorem mem_setAdd {l : List String} {x y : String} (h : y ∈ setAdd l x) :
    y = x ∨ y ∈ l := by
  unfold setAdd at h
  by_cases hc : l.contains x
  · rw [if_pos hc] at h; exact Or.inr h
  · rw [if_neg hc] at h
    rcases List.mem_append.mp h with h' | h'
    · exact Or.inr h'
    · exact Or.inl (by simpa using h')

theorem mem_insertSorted {α : Type} (lt : α → α → Bool) (x y : α) :
    ∀ l : List α, (y ∈ insertSorted lt x l ↔ y = x ∨ y ∈ l) := by
  intro l
  induction l with
  | nil => simp [insertSorted]
  | cons z t ih =>
    unfold insertSorted
    by_cases h : lt x z = true
    · rw [if_pos h]
      simp
    · rw [if_neg h]
      simp [ih]
      tauto

theorem mem_stableSortBy {α : Type} (lt : α → α → Bool) (l : List α) (y : α) :
    y ∈ stableSortBy lt l ↔ y ∈ l := by
  have key : ∀ (l' : List α) (acc : List α),
      y ∈ l'.foldl (fun acc x => insertSorted lt x acc) acc ↔ y ∈ acc ∨ y ∈ l' := by
    intro l'
    induction l' with
    | nil => intro acc; simp
    | cons x t ih =>
      intro acc
      rw [List.foldl_cons, ih, mem_insertSorted]
      simp
      tauto
  unfold stableSortBy
  rw [key]
  simp

theorem mem_sortStrings (l : List String) (y : String) : y ∈ sortStrings l ↔ y ∈ l :=
  mem_stableSortBy stringLtB l y

/-! ## `generateIAMPolicy` fold lemmas -/

theorem mapGet_mem {V : Type} {m : List (String × V)} {k : String} {v : V}
    (h : mapGet m k = some v) : (k, v) ∈ m := by
  unfold mapGet at h
  obtain ⟨e, hfind, he2⟩ := Option.map_eq_some'.mp h
  have hmem := List.mem_of_find?_eq_some hfind
  have hpred := List.find?_some hfind
  have hk : e.1 = k := by simpa using hpred
  have : e = (k, v) := by
    obtain ⟨e1, e2⟩ := e
    simp at hk he2
    rw [hk, he2]
  rw [← this]
  exact hmem

theorem iamStep_self {m : List (String × StmtAcc)} {p : SuggestedPermission}
    (hkeep : keepIAMPermission p = true) :
    ∃ st, mapGet (iamStep m p) (p.resource ++ ":" ++ condKey p.condition) = some st ∧
      p.action ∈ st.actions ∧ p.resource ∈ st.resources := by
  unfold iamStep
  rw [if_pos hkeep]
  cases hg : mapGet m (p.resource ++ ":" ++ condKey p.condition) with
  | some st =>
    simp only [hg]
    exact ⟨_, mapGet_mapSet_self _ _ _, mem_setAdd_self _ _, mem_setAdd_self _ _⟩
  | none =>
    simp only [hg]
    exact ⟨_, mapGet_mapSet_self _ _ _, by simp, by simp⟩

theorem iamStep_mono {m : List (String × StmtAcc)} {k : String} {a r : String}
    {st : StmtAcc} (h : mapGet m k = some st) (ha : a ∈ st.actions)
    (hr : r ∈ st.resources) (p : SuggestedPermission) :
    ∃ st', mapGet (iamStep m p) k = some st' ∧ a ∈ st'.actions ∧ r ∈ st'.resources := by
  unfold iamStep
  by_cases hkeep : keepIAMPermission p = true
  · rw [if_pos hkeep]
    by_cases hkey : p.resource ++ ":" ++ condKey p.condition = k
    · rw [hkey]
      simp only [h]
      exact ⟨_, mapGet_mapSet_self _ _ _, mem_setAdd_mono _ ha, mem_setAdd_mono _ hr⟩
    · cases hg : mapGet m (p.resource ++ ":" ++ condKey p.condition) with
      | some st₂ =>
        simp only [hg]
        exact ⟨st, by rw [mapGet_mapSet_ne _ _ _ _ hkey]; exact h, ha, hr⟩
      | none =>
        simp only [hg]
        exact ⟨st, by rw [mapGet_mapSet_ne _ _ _ _ hkey]; exact h, ha, hr⟩
  · rw [if_neg hkeep]
    exact ⟨st, h, ha, hr⟩

theorem iamFold_mono (l : List SuggestedPermission) :
    ∀ {m : List (String × StmtAcc)} {k a r : String} {st : StmtAcc},
      mapGet m k = some st → a ∈ st.actions → r ∈ st.resources →
      ∃ st', mapGet (l.foldl iamStep m) k = some st' ∧ a ∈ st'.actions ∧
        r ∈ st'.resources := by
  induction l with
  | nil => intro m k a r st h ha hr; exact ⟨st, h, ha, hr⟩
  | cons p t ih =>
    intro m k a r st h ha hr
    rw [List.foldl_cons]
    obtain ⟨st', h', ha', hr'⟩ := iamStep_mono h ha hr p
    exact ih h' ha' hr'

theorem iamFold_contributes (l : List SuggestedPermission) :
    ∀ (m : List (String × StmtAcc)) (p : SuggestedPermission), p ∈ l →
      keepIAMPermission p = true →
      ∃ k st, mapGet (l.foldl iamStep m) k = some st ∧ p.action ∈ st.actions ∧
        p.resource ∈ st.resources := by
  induction l with
  | nil => intro m p hp; cases hp
  | cons q t ih =>
    intro m p hp hkeep
    rw [List.foldl_cons]
    rcases List.mem_cons.mp hp with rfl | hp'
    · obtain ⟨st, h, ha, hr⟩ := iamStep_self (m := m) hkeep
      obtain ⟨st', h', ha', hr'⟩ := iamFold_mono t h ha hr
      exact ⟨_, st', h', ha', hr'⟩
    · exact ih _ p hp' hkeep

theorem iamFold_filter (l : List SuggestedPermission) :
    ∀ m, l.foldl iamStep m = (l.filter keepIAMPermission).foldl iamStep m := by
  induction l with
  | nil => intro m; rfl
  | cons p t ih =>
    intro m
    by_cases hk : keepIAMPermission p = true
    · rw [List.filter_cons_of_pos hk, List.foldl_cons, List.foldl_cons, ih]
    · rw [List.filter_cons_of_neg (by simpa using hk), List.foldl_cons]
      have hstep : iamStep m p = m := by
        unfold iamStep
        rw [if_neg hk]
      rw [hstep, ih]

/-! ## C4: the `generateIAMPolicy` filter -/

/-- C4: `generateIAMPolicy` processes exactly the permissions passing the
`frequency == 0 && severity == Low` filter — the policy of a batch equals
the policy of its filtered batch, the filter rejects exactly the
zero-frequency `Low` permissions, and every kept permission contributes its
action and resource to some emitted statement. -/
theorem generateIAMPolicy_filter (permissions : List SuggestedPermission)
    (p : SuggestedPermission) (hp : p ∈ permissions)
    (hkeep : keepIAMPermission p = true) :
    generateIAMPolicy permissions =
        generateIAMPolicy (permissions.filter keepIAMPermission) ∧
    (∀ q : SuggestedPermission,
        keepIAMPermission q = false ↔ q.frequency = 0 ∧ q.severity = Severity.low) ∧
    ∃ stmt ∈ (generateIAMPolicy permissions).Statement,
      p.action ∈ stmt.Action ∧ p.resource ∈ stmt.Resource := by
  refine ⟨?_, ?_, ?_⟩
  · unfold generateIAMPolicy
    rw [iamFold_filter]
  · intro q
    unfold keepIAMPermission
    constructor
    · intro h
      have : (q.frequency == 0 && q.severity == Severity.low) = true := by
        cases hb : (q.frequency == 0 && q.severity == Severity.low) with
        | true => rfl
        | false => rw [hb] at h; cases h
      simp at this
      exact this
    · rintro ⟨h1, h2⟩
      simp [h1, h2]
  · obtain ⟨k, st, hget, ha, hr⟩ := iamFold_contributes permissions [] p hp hkeep
    refine ⟨renderStatement st, ?_, ?_, ?_⟩
    · exact List.mem_map_of_mem (fun e => renderStatement e.2) (mapGet_mem hget)
    · exact (mem_sortStrings _ _).mpr ha
    · exact (mem_sortStrings _ _).mpr hr

/-- C4 witness: the filter theorem at a concrete singleton batch. -/
theorem generateIAMPolicy_filter_witness :
    generateIAMPolicy [samplePermission] =
        generateIAMPolicy ([samplePermission].filter keepIAMPermission) ∧
    (∀ q : SuggestedPermission,
        keepIAMPermission q = false ↔ q.frequency = 0 ∧ q.severity = Severity.low) ∧
    ∃ stmt ∈ (generateIAMPolicy [samplePermission]).Statement,
      samplePermission.action ∈ stmt.Action ∧ samplePermission.resource ∈ stmt.Resource :=
  generateIAMPolicy_filter [samplePermission] samplePermission (by simp) (by decide)

/-! ## C8: no invented grants -/

theorem mem_mapSet {V : Type} {m : List (String × V)} {k : String} {v : V}
    {e : String × V} (h : e ∈ mapSet m k v) : e = (k, v) ∨ e ∈ m := by
  induction m with
  | nil =>
    simp [mapSet] at h
    exact Or.inl h
  | cons x t ih =>
    obtain ⟨k₁, v₁⟩ := x
    by_cases h₁ : (k₁ == k) = true
    · rw [mapSet, if_pos h₁] at h
      rcases List.mem_cons.mp h with h' | h'
      · exact Or.inl h'
      · exact Or.inr (List.mem_cons_of_mem _ h')
    · rw [mapSet, if_neg h₁] at h
      rcases List.mem_cons.mp h with h' | h'
      · exact Or.inr (h' ▸ List.mem_cons_self _ _)
      · rcases ih h' with h'' | h''
        · exact Or.inl h''
        · exact Or.inr (List.mem_cons_of_mem _ h'')

/-- The statement-map invariant behind C8: every accumulated action and
resource originates from some input permission. -/
theorem iamFold_sources (P : List SuggestedPermission) :
    ∀ (l : List SuggestedPermission) (m : List (String × StmtAcc)),
      (∀ q ∈ l, q ∈ P) →
      (∀ e ∈ m, (∀ a ∈ (e : String × StmtAcc).2.actions, ∃ p ∈ P, p.action = a) ∧
        (∀ r ∈ e.2.resources, ∃ p ∈ P, p.resource = r)) →
      ∀ e ∈ l.foldl iamStep m,
        (∀ a ∈ (e : String × StmtAcc).2.actions, ∃ p ∈ P, p.action = a) ∧
        (∀ r ∈ e.2.resources, ∃ p ∈ P, p.resource = r) := by
  intro l
  induction l with
  | nil => intro m _ hm e he; exact hm e he
  | cons q t ih =>
    intro m hl hm
    rw [List.foldl_cons]
    refine ih _ (fun x hx => hl x (List.mem_cons_of_mem _ hx)) ?_
    have hq : q ∈ P := hl q (List.mem_cons_self _ _)
    intro e he
    unfold iamStep at he
    by_cases hkeep : keepIAMPermission q = true
    · rw [if_pos hkeep] at he
      cases hg : mapGet m (q.resource ++ ":" ++ condKey q.condition) with
      | some st =>
        simp only [hg] at he
        rcases mem_mapSet he with rfl | h'
        · have hst := hm _ (mapGet_mem hg)
          constructor
          · intro a ha
            rcases mem_setAdd ha with rfl | ha'
            · exact ⟨q, hq, rfl⟩
            · exact hst.1 a ha'
          · intro r hr
            rcases mem_setAdd hr with rfl | hr'
            · exact ⟨q, hq, rfl⟩
            · exact hst.2 r hr'
        · exact hm e h'
      | none =>
        simp only [hg] at he
        rcases mem_mapSet he with rfl | h'
        · constructor
          · intro a ha
            simp at ha
            exact ⟨q, hq, ha ▸ rfl⟩
          · intro r hr
            simp at hr
            exact ⟨q, hq, hr ▸ rfl⟩
        · exact hm e h'
    · rw [if_neg hkeep] at he
      exact hm e he

/-- C8: every action string and every resource string appearing in any
statement of the synthesized policy is the action or resource of some input
permission — `generateIAMPolicy` invents no grants. -/
theorem generateIAMPolicy_no_invented_grants (permissions : List SuggestedPermission)
    (stmt : IAMStatement) (hstmt : stmt ∈ (generateIAMPolicy permissions).Statement) :
    (∀ a ∈ stmt.Action, ∃ p ∈ permissions, p.action = a) ∧
    (∀ r ∈ stmt.Resource, ∃ p ∈ permissions, p.resource = r) := by
  unfold generateIAMPolicy at hstmt
  simp only at hstmt
  obtain ⟨e, he, hrender⟩ := List.mem_map.mp hstmt
  have hsrc := iamFold_sources permissions permissions [] (fun q hq => hq) (by simp) e he
  constructor
  · intro a ha
    rw [← hrender] at ha
    have : a ∈ e.2.actions := (mem_sortStrings _ _).mp ha
    exact hsrc.1 a this
  · intro r hr
    rw [← hrender] at hr
    have : r ∈ e.2.resources := (mem_sortStrings _ _).mp hr
    exact hsrc.2 r this

/-- C8 witness: the no-invented-grants theorem at a concrete singleton
batch and its unique emitted statement. -/
theorem generateIAMPolicy_no_invented_grants_witness :
    (∀ a ∈ (renderStatement
        { actions := [samplePermission.action],
          resources := [samplePermission.resource],
          condition := none }).Action,
      ∃ p ∈ [samplePermission], p.action = a) ∧
    (∀ r ∈ (renderStatement
        { actions := [samplePermission.action],
          resources := [samplePermission.resource],
          condition := none }).Resource,
      ∃ p ∈ [samplePermission], p.resource = r) :=
  generateIAMPolicy_no_invented_grants [samplePermission]
    (renderStatement
      { actions := [samplePermission.action],
        resources := [samplePermission.resource],
        condition := none })
    (by rw [show (generateIAMPolicy [samplePermission]).Statement =
          [renderStatement
            { actions := [samplePermission.action],
              resources := [samplePermission.resource],
              condition := none }] from rfl]
        exact List.mem_cons_self _ _)

/-! ## C5: the `Critical` severity characterization -/

/-- C5 counterexample: the code classifies as `Critical` on error codes
that merely *contain* `AccessDenied` — here `AccessDeniedException` with a
`dynamodb:*` action is `Critical` although the error code is not
`AccessDenied`, so "Critical iff the errorCode *is* AccessDenied and the
action matches" fails in the only-if direction. -/
theorem calculateSeverity_critical_without_exact_code :
    calculateSeverity "dynamodb:query" "AccessDeniedException" 0 = Severity.critical ∧
      "AccessDeniedException" ≠ "AccessDenied" := by decide

/-- C5 (amended): `calculateSeverity` returns `Critical` iff the error code
*contains* `AccessDenied` and the lowercased action *contains*
`lambda:invokefunction`, `dynamodb:`, or `s3:getobject`; in particular
`{action: lambda:InvokeFunction, errorCode: AccessDenied}` is `Critical`
for every sibling-denial count. -/
theorem calculateSeverity_critical_iff (action errorCode : String) (n : Nat) :
    (calculateSeverity action errorCode n = Severity.critical ↔
      sIncludes errorCode "AccessDenied" = true ∧
        (sIncludes (sToLower action) "lambda:invokefunction" = true ∨
         sIncludes (sToLower action) "dynamodb:" = true ∨
         sIncludes (sToLower action) "s3:getobject" = true)) ∧
    calculateSeverity "lambda:InvokeFunction" "AccessDenied" n = Severity.critical := by
  constructor
  · unfold calculateSeverity
    by_cases h1 : sIncludes errorCode "AccessDenied" = true ∧
        (sIncludes (sToLower action) "lambda:invokefunction" = true ∨
         sIncludes (sToLower action) "dynamodb:" = true ∨
         sIncludes (sToLower action) "s3:getobject" = true)
    · rw [if_pos h1]
      exact iff_of_true rfl h1
    · rw [if_neg h1]
      refine iff_of_false ?_ h1
      split_ifs <;> decide
  · unfold calculateSeverity
    rw [if_pos (by decide)]

/-- C5 witness: the characterization evaluated at one concrete input. -/
theorem calculateSeverity_critical_iff_witness :
    ((calculateSeverity "s3:GetObject" "AccessDenied" 3 = Severity.critical ↔
      sIncludes "AccessDenied" "AccessDenied" = true ∧
        (sIncludes (sToLower "s3:GetObject") "lambda:invokefunction" = true ∨
         sIncludes (sToLower "s3:GetObject") "dynamodb:" = true ∨
         sIncludes (sToLower "s3:GetObject") "s3:getobject" = true)) ∧
    calculateSeverity "lambda:InvokeFunction" "AccessDenied" 3 = Severity.critical) :=
  calculateSeverity_critical_iff "s3:GetObject" "AccessDenied" 3

/-! ## C10: the CDK filter differs from the policy filter -/

/-- C10: `generateCDKCode` filters with `frequency > 0 || severity ∈
{Critical, High}`, a different predicate from `generateIAMPolicy`'s: a
zero-frequency `Medium` permission passes the policy filter and its action
reaches a policy statement, yet the CDK generator keeps nothing and its
generated code contains no policy statement at all. -/
theorem generateCDKCode_filter_differs :
    (∀ p : SuggestedPermission,
      cdkRelevantFilter p = true ↔
        0 < p.frequency ∨ p.severity = Severity.critical ∨ p.severity = Severity.high) ∧
    cdkRelevantFilter sampleZeroMediumPermission = false ∧
    keepIAMPermission sampleZeroMediumPermission = true ∧
    (∃ stmt ∈ (generateIAMPolicy [sampleZeroMediumPermission]).Statement,
      sampleZeroMediumPermission.action ∈ stmt.Action ∧
        sampleZeroMediumPermission.resource ∈ stmt.Resource) ∧
    cdkPolicyStatements [sampleZeroMediumPermission] = [] := by
  refine ⟨?_, by decide, by decide, ?_, rfl⟩
  · intro p
    unfold cdkRelevantFilter
    simp [Bool.or_eq_true, decide_eq_true_eq, beq_iff_eq, or_assoc]
  · refine ⟨renderStatement
      { actions := [sampleZeroMediumPermission.action],
        resources := [sampleZeroMediumPermission.resource],
        condition := none }, ?_, by decide, by decide⟩
    rw [show (generateIAMPolicy [sampleZeroMediumPermission]).Statement =
        [renderStatement
          { actions := [sampleZeroMediumPermission.action],
            resources := [sampleZeroMediumPermission.resource],
            condition := none }] from rfl]
    exact List.mem_cons_self _ _

/-- C10 witness: the filter characterization and divergence instantiated —
obtained by applying the theorem (its only binder is inside the first
conjunct). -/
theorem generateCDKCode_filter_differs_witness :
    cdkRelevantFilter sampleZeroMediumPermission = false ∧
      keepIAMPermission sampleZeroMediumPermission = true :=
  ⟨generateCDKCode_filter_differs.2.1, generateCDKCode_filter_differs.2.2.1⟩

/-! ## C6: the parser's rejection paths -/

/-- C6 counterexample: the parser has a rejection path besides the
no-signature-match case — the leading JavaScript falsy guard.  A record
whose message contains the `AccessDenied` signature but whose timestamp is
`0` (falsy) is rejected even though a signature matched. -/
theorem parsePermissionDenial_absent_despite_signature :
    hasPermissionDenialPattern "AccessDenied" = true ∧
    parsePermissionDenial
      { message := "AccessDenied", timestamp := 0, logStreamName := "s" } "lg" = none := by
  constructor
  · decide
  · rfl

/-- C6 (amended): the parser is a total function (it never throws); it
also returns absent when the record's message, timestamp, or stream name is
JavaScript-falsy (empty message, zero timestamp, empty stream name); for
every record passing that guard it returns absent exactly when the raw
message matches none of the fixed denial-signature patterns. -/
theorem parsePermissionDenial_none_iff (event : FilteredLogEvent) (lg : String)
    (hm : event.message ≠ "") (ht : event.timestamp ≠ 0) (hs : event.logStreamName ≠ "") :
    parsePermissionDenial event lg = none ↔
      hasPermissionDenialPattern event.message = false := by
  unfold parsePermissionDenial
  rw [if_neg (by simp [hm, ht, hs])]
  by_cases hp : hasPermissionDenialPattern event.message = true
  · rw [if_neg (by simp [hp])]
    refine iff_of_false ?_ (by simp [hp])
    cases hj : jsonParse event.message with
    | none => simp
    | some v => cases v <;> simp
  · rw [if_pos (by simpa using hp)]
    exact iff_of_true rfl (by simpa using hp)

/-- C6 witness: the amended theorem at a concrete signature-free record. -/
theorem parsePermissionDenial_none_iff_witness :
    ("hello world" : String) ≠ "" ∧ (7 : Int) ≠ 0 ∧ ("s1" : String) ≠ "" ∧
    (parsePermissionDenial
        { message := "hello world", timestamp := 7, logStreamName := "s1" } "lg" = none ↔
      hasPermissionDenialPattern "hello world" = false) :=
  ⟨by decide, by decide, by decide,
   parsePermissionDenial_none_iff
     { message := "hello world", timestamp := 7, logStreamName := "s1" } "lg"
     (by decide) (by decide) (by decide)⟩

/-! ## C7: the not-authorized scenario message -/

/-- C7: the scenario raw message parses to a denial with exactly the
claimed action, resource, principal and error code (`JSON.parse` fails on
it, so the text-fallback extractors are used; the timestamp field carries
the embedded rendering of the epoch value). -/
theorem parsePermissionDenial_scenario :
    parsePermissionDenial
      { message := "User: arn:aws:iam::123456789012:role/test-role is not authorized to perform: s3:GetObject on resource: arn:aws:s3:::test-bucket/file.txt",
        timestamp := 1700000000000,
        logStreamName := "stream-1" } "lg" =
    some
      { timestamp := dateToIso 1700000000000,
        logGroup := "lg",
        logStream := "stream-1",
        message := "User: arn:aws:iam::123456789012:role/test-role is not authorized to perform: s3:GetObject on resource: arn:aws:s3:::test-bucket/file.txt",
        action := "s3:GetObject",
        resource := "arn:aws:s3:::test-bucket/file.txt",
        principal := "arn:aws:iam::123456789012:role/test-role",
        errorCode := "AccessDenied",
        sourceIp := none,
        userAgent := none } := by
  set_option maxRecDepth 20000 in decide
